import Mathlib

/-!
# Webhook echo server (`src/main.go`)

A shallow embedding of the three HTTP handlers of `main.go` and of the
standard-library calls whose results decide their responses
(`json.Unmarshal` into `interface{}`, `strings.Contains`, `Header.Get`,
`URL.Query`, the `omitempty` rule of `encoding/json`, `ServeMux` matching).

Go strings are `String`; a request body is the text `io.ReadAll` returned.
Only the query string is taken apart as bytes, since percent-decoding can
leave bytes that are no text. Log output is observability only and is not
part of the model; `time.Now()` is a parameter of the handlers. The handlers
discard the error of `Encode`: when the encoder refuses a document, nothing is
written and the reply has an empty body.
-/

set_option autoImplicit false
set_option exponentiation.threshold 4096

namespace Webhook

/-! ## JSON values -/

/-- A JSON value. It stands both for the dynamic value `json.Unmarshal` stores
in an `interface{}` (`null` is the nil interface, `num` a `float64`, `str` a
`string`, `arr` a `[]interface{}`, `obj` a `map[string]interface{}`) and for
the tree `json.Encoder` writes. A number is kept as the decimal
`(-1)^neg * mant * 10^exp` it was read from; its rounding to the nearest
`float64` is not modelled. Member order of `obj` carries no meaning. -/
inductive Json where
  | null
  | bool (b : Bool)
  | num (neg : Bool) (mant : Nat) (exp : Int)
  | str (s : String)
  | arr (xs : List Json)
  | obj (kvs : List (String × Json))

namespace Json

/-- The value of member `k` of an object, `none` when `k` is not a member (or
the value is not an object). -/
def get? : Json → String → Option Json
  | obj kvs, k => (kvs.find? (fun p => p.1 == k)).map Prod.snd
  | _, _ => none

/-- The member names of an object. -/
def keys : Json → List String
  | obj kvs => kvs.map Prod.fst
  | _ => []

/-- Whether the value is the nil interface. -/
def isNull : Json → Bool
  | null => true
  | _ => false

end Json

mutual
/-- The nesting depth of a value: how many arrays and objects lie one inside
the other; a value that is no array or object has depth 0. -/
def Json.depth : Json → Nat
  | Json.arr xs => depthList xs + 1
  | Json.obj kvs => depthMembers kvs + 1
  | _ => 0
/-- The greatest depth among the elements of an array. -/
def depthList : List Json → Nat
  | [] => 0
  | x :: xs => max x.depth (depthList xs)
/-- The greatest depth among the member values of an object. -/
def depthMembers : List (String × Json) → Nat
  | [] => 0
  | (_, v) :: kvs => max v.depth (depthMembers kvs)
end

/-- Map assignment `m[k] = v` on a `map[string]interface{}`: an existing
member is overwritten, a new one is added. -/
def mapSet : List (String × Json) → String → Json → List (String × Json)
  | [], k, v => [(k, v)]
  | (k', v') :: rest, k, v =>
    if k' = k then (k, v) :: rest else (k', v') :: mapSet rest k v

/-! ## `encoding/json`: scanner and decoder

`json.Unmarshal(data, &v)` with `v` an `interface{}` first runs the scanner
of `scanner.go` over all of `data` (`checkValid`), a byte-at-a-time state
machine with a stack of open containers, and then decodes. The machine below
has the scanner's states and builds the decoded value while it scans. -/

/-- An open container: the elements of an array read so far, or the members
of an object read so far with the key that still waits for its value. -/
inductive Frame where
  | arr (done : List Json)
  | obj (done : List (String × Json)) (key : Option String)

/-- The digits of a number read so far: sign, all digits of the integer and
fraction parts as one natural number, the count of fraction digits, the sign
and the digits of the exponent. -/
structure NumAcc where
  neg : Bool
  mant : Nat
  frac : Nat
  eneg : Bool
  eval : Nat

/-- The scanner's step states (`stateBeginValue`, `stateInString`, `state1`,
...). A string state carries the characters decoded so far (reversed) and a
high surrogate of a `\u` escape that waits for its low half. -/
inductive Scan where
  | beginValue
  | beginValueOrEmpty
  | beginStringOrEmpty
  | beginString
  | endValue
  | endTop (v : Json)
  | inString (acc : List Char) (hi : Option Nat)
  | inStringEsc (acc : List Char) (hi : Option Nat)
  | inStringEscU (acc : List Char) (hi : Option Nat) (digits : List Nat)
  | neg
  | zero (n : NumAcc)
  | int (n : NumAcc)
  | dot (n : NumAcc)
  | dot0 (n : NumAcc)
  | e (n : NumAcc)
  | eSign (n : NumAcc)
  | e0 (n : NumAcc)
  | lit (rest : List Char) (v : Json)

/-- Scanner and decoder state: the step state, the open containers (innermost
first) and whether a number out of `float64` range was met
(`decodeState.savedError`). -/
structure St where
  scan : Scan
  stack : List Frame
  range : Bool

/-- The nesting limit of `encoding/json` (`maxNestingDepth`): the scanner
rejects a text nested deeper, and the encoder a document nested deeper. -/
def maxNestingDepth : Nat := 10000

/-- JSON whitespace (`isSpace` of `scanner.go`). -/
def isSpace (c : Char) : Bool :=
  c = ' ' || c = '\t' || c = '\r' || c = '\n'

/-- The value of a decimal digit character. -/
def digitVal (c : Char) : Option Nat :=
  if '0' ≤ c ∧ c ≤ '9' then some (c.toNat - '0'.toNat) else none

/-- The value of a hexadecimal digit character. -/
def hexVal (c : Char) : Option Nat :=
  if '0' ≤ c ∧ c ≤ '9' then some (c.toNat - '0'.toNat)
  else if 'a' ≤ c ∧ c ≤ 'f' then some (c.toNat - 'a'.toNat + 10)
  else if 'A' ≤ c ∧ c ≤ 'F' then some (c.toNat - 'A'.toNat + 10)
  else none

/-- The least magnitude that does not fit a `float64`: `2^1024 - 2^970`,
halfway between the largest finite `float64` and `2^1024`. -/
def float64Limit : Nat :=
  179769313486231580793728971405303415079934132710037826936173778980444968292764750946649017977587207096330286416692887910946555547851940402630657488671505820681908902000708383676273854845817711531764475730270069855571366959622842914819860834936475292719074168444365510704342711559699508093042880177904174497792

/-- Whether `strconv.ParseFloat(s, 64)` reports `ErrRange` for the decimal
`mant * 10^exp`: the nearest `float64` is infinite, that is, the magnitude is
at least `float64Limit`. Magnitudes too small for a `float64` round to zero
without an error. -/
def floatOverflows (mant : Nat) (exp : Int) : Bool :=
  if 0 ≤ exp then decide (float64Limit ≤ mant * 10 ^ exp.toNat)
  else decide (float64Limit * 10 ^ (-exp).toNat ≤ mant)

/-- The decimal exponent of a scanned number. -/
def NumAcc.exp (n : NumAcc) : Int :=
  (if n.eneg then -(n.eval : Int) else (n.eval : Int)) - (n.frac : Int)

/-- The decoded value of a scanned number. -/
def NumAcc.value (n : NumAcc) : Json :=
  Json.num n.neg n.mant n.exp

/-- A finished value goes to the innermost open container, or is the result
when none is open. In an object a value that arrives when no key waits is
the key itself. -/
def emit (range : Bool) (v : Json) : List Frame → Option St
  | [] => some ⟨Scan.endTop v, [], range⟩
  | Frame.arr done :: rest => some ⟨Scan.endValue, Frame.arr (done ++ [v]) :: rest, range⟩
  | Frame.obj done (some k) :: rest =>
    some ⟨Scan.endValue, Frame.obj (mapSet done k v) none :: rest, range⟩
  | Frame.obj done none :: rest =>
    match v with
    | Json.str s => some ⟨Scan.endValue, Frame.obj done (some s) :: rest, range⟩
    | _ => none

/-- A new container is opened (`pushParseState`): an error beyond
`maxNestingDepth`. -/
def push (st : St) (f : Frame) (next : Scan) : Option St :=
  if (f :: st.stack).length ≤ maxNestingDepth then some ⟨next, f :: st.stack, st.range⟩
  else none

/-- The innermost container is closed and becomes a finished value
(`popParseState`). -/
def close (st : St) : Option St :=
  match st.stack with
  | Frame.arr done :: rest => emit st.range (Json.arr done) rest
  | Frame.obj done none :: rest => emit st.range (Json.obj done) rest
  | _ => none

/-- The state `stateEndValue` on character `c`, after a value inside a
container. -/
def stepEndValue (st : St) (c : Char) : Option St :=
  if isSpace c then some ⟨Scan.endValue, st.stack, st.range⟩
  else
    match st.stack with
    | [] => none
    | Frame.obj _ (some _) :: _ =>
      if c = ':' then some ⟨Scan.beginValue, st.stack, st.range⟩ else none
    | Frame.obj _ none :: _ =>
      if c = ',' then some ⟨Scan.beginString, st.stack, st.range⟩
      else if c = '}' then close st
      else none
    | Frame.arr _ :: _ =>
      if c = ',' then some ⟨Scan.beginValue, st.stack, st.range⟩
      else if c = ']' then close st
      else none

/-- The character after the end of a value: the result is complete when no
container is open (`stateEndTop`), else `stateEndValue`. -/
def stepAfterValue (st : St) (c : Char) : Option St :=
  match st.scan with
  | Scan.endTop v => if isSpace c then some ⟨Scan.endTop v, st.stack, st.range⟩ else none
  | _ => stepEndValue st c

/-- A number ends at character `c`: it is converted (`convertNumber`), the
range error is recorded, and `c` is scanned after the value. -/
def endNumber (st : St) (n : NumAcc) (c : Char) : Option St :=
  match emit (st.range || floatOverflows n.mant n.exp) n.value st.stack with
  | some st' => stepAfterValue st' c
  | none => none

/-- The characters decoded so far, a waiting high surrogate resolved to
U+FFFD. -/
def flushHi (acc : List Char) : Option Nat → List Char
  | some _ => Char.ofNat 0xFFFD :: acc
  | none => acc

/-- A finished string value or object key. -/
def endString (st : St) (acc : List Char) (hi : Option Nat) : Option St :=
  emit st.range (Json.str (String.mk (flushHi acc hi).reverse)) st.stack

/-- A code unit `u` of a `\uXXXX` escape with no high surrogate waiting: a
high surrogate waits for its low half, a low surrogate alone becomes U+FFFD,
any other unit is the character itself. -/
def addFresh (acc : List Char) (u : Nat) : Scan :=
  if 0xD800 ≤ u ∧ u < 0xDC00 then Scan.inString acc (some u)
  else if 0xDC00 ≤ u ∧ u < 0xE000 then Scan.inString (Char.ofNat 0xFFFD :: acc) none
  else Scan.inString (Char.ofNat u :: acc) none

/-- The code unit `u` of a finished `\uXXXX` escape joins the string
(`unquoteBytes`): a low surrogate completes a waiting high surrogate;
otherwise the waiting one becomes U+FFFD and `u` is taken on its own. -/
def addUnit (acc : List Char) (hi : Option Nat) (u : Nat) : Scan :=
  match hi with
  | some h =>
    if 0xDC00 ≤ u ∧ u < 0xE000 then
      Scan.inString (Char.ofNat (0x10000 + (h - 0xD800) * 0x400 + (u - 0xDC00)) :: acc) none
    else addFresh (Char.ofNat 0xFFFD :: acc) u
  | none => addFresh acc u

/-- The character a single-letter escape stands for. -/
def escChar (c : Char) : Option Char :=
  if c = 'b' then some (Char.ofNat 8)
  else if c = 'f' then some (Char.ofNat 12)
  else if c = 'n' then some '\n'
  else if c = 'r' then some '\r'
  else if c = 't' then some '\t'
  else if c = '\\' then some '\\'
  else if c = '/' then some '/'
  else if c = '"' then some '"'
  else none

/-- The state `stateBeginValue` on character `c`. -/
def stepBeginValue (st : St) (c : Char) : Option St :=
  if isSpace c then some ⟨Scan.beginValue, st.stack, st.range⟩
  else if c = '{' then push st (Frame.obj [] none) Scan.beginStringOrEmpty
  else if c = '[' then push st (Frame.arr []) Scan.beginValueOrEmpty
  else if c = '"' then some ⟨Scan.inString [] none, st.stack, st.range⟩
  else if c = '-' then some ⟨Scan.neg, st.stack, st.range⟩
  else if c = '0' then some ⟨Scan.zero ⟨false, 0, 0, false, 0⟩, st.stack, st.range⟩
  else if c = 't' then some ⟨Scan.lit ['r', 'u', 'e'] (Json.bool true), st.stack, st.range⟩
  else if c = 'f' then
    some ⟨Scan.lit ['a', 'l', 's', 'e'] (Json.bool false), st.stack, st.range⟩
  else if c = 'n' then some ⟨Scan.lit ['u', 'l', 'l'] Json.null, st.stack, st.range⟩
  else
    match digitVal c with
    | some d => some ⟨Scan.int ⟨false, d, 0, false, 0⟩, st.stack, st.range⟩
    | none => none

/-- The state `stateBeginString` on character `c`. -/
def stepBeginString (st : St) (c : Char) : Option St :=
  if isSpace c then some ⟨Scan.beginString, st.stack, st.range⟩
  else if c = '"' then some ⟨Scan.inString [] none, st.stack, st.range⟩
  else none

/-- The state `state0` on character `c`: after the integer part. -/
def stepZero (st : St) (n : NumAcc) (c : Char) : Option St :=
  if c = '.' then some ⟨Scan.dot n, st.stack, st.range⟩
  else if c = 'e' ∨ c = 'E' then some ⟨Scan.e n, st.stack, st.range⟩
  else endNumber st n c

/-- The state `stateESign` on character `c`: the first exponent digit. -/
def stepESign (st : St) (n : NumAcc) (c : Char) : Option St :=
  match digitVal c with
  | some d => some ⟨Scan.e0 { n with eval := d }, st.stack, st.range⟩
  | none => none

/-- One step of the scanner on character `c`; `none` is a syntax error. -/
def step (st : St) (c : Char) : Option St :=
  match st.scan with
  | Scan.beginValue => stepBeginValue st c
  | Scan.beginValueOrEmpty =>
    if isSpace c then some st
    else if c = ']' then close st
    else stepBeginValue st c
  | Scan.beginStringOrEmpty =>
    if isSpace c then some st
    else if c = '}' then close st
    else stepBeginString st c
  | Scan.beginString => stepBeginString st c
  | Scan.endValue => stepEndValue st c
  | Scan.endTop v => if isSpace c then some ⟨Scan.endTop v, st.stack, st.range⟩ else none
  | Scan.inString acc hi =>
    if c = '"' then endString st acc hi
    else if c = '\\' then some ⟨Scan.inStringEsc acc hi, st.stack, st.range⟩
    else if c.toNat < 0x20 then none
    else some ⟨Scan.inString (c :: flushHi acc hi) none, st.stack, st.range⟩
  | Scan.inStringEsc acc hi =>
    if c = 'u' then some ⟨Scan.inStringEscU acc hi [], st.stack, st.range⟩
    else
      match escChar c with
      | some x => some ⟨Scan.inString (x :: flushHi acc hi) none, st.stack, st.range⟩
      | none => none
  | Scan.inStringEscU acc hi ds =>
    match hexVal c with
    | none => none
    | some d =>
      match ds with
      | [d1, d2, d3] =>
        some ⟨addUnit acc hi (((d1 * 16 + d2) * 16 + d3) * 16 + d), st.stack, st.range⟩
      | _ => some ⟨Scan.inStringEscU acc hi (ds ++ [d]), st.stack, st.range⟩
  | Scan.neg =>
    if c = '0' then some ⟨Scan.zero ⟨true, 0, 0, false, 0⟩, st.stack, st.range⟩
    else
      match digitVal c with
      | some d => some ⟨Scan.int ⟨true, d, 0, false, 0⟩, st.stack, st.range⟩
      | none => none
  | Scan.zero n => stepZero st n c
  | Scan.int n =>
    match digitVal c with
    | some d => some ⟨Scan.int { n with mant := n.mant * 10 + d }, st.stack, st.range⟩
    | none => stepZero st n c
  | Scan.dot n =>
    match digitVal c with
    | some d =>
      some ⟨Scan.dot0 { n with mant := n.mant * 10 + d, frac := n.frac + 1 }, st.stack, st.range⟩
    | none => none
  | Scan.dot0 n =>
    match digitVal c with
    | some d =>
      some ⟨Scan.dot0 { n with mant := n.mant * 10 + d, frac := n.frac + 1 }, st.stack, st.range⟩
    | none =>
      if c = 'e' ∨ c = 'E' then some ⟨Scan.e n, st.stack, st.range⟩
      else endNumber st n c
  | Scan.e n =>
    if c = '+' then some ⟨Scan.eSign n, st.stack, st.range⟩
    else if c = '-' then some ⟨Scan.eSign { n with eneg := true }, st.stack, st.range⟩
    else stepESign st n c
  | Scan.eSign n => stepESign st n c
  | Scan.e0 n =>
    match digitVal c with
    | some d => some ⟨Scan.e0 { n with eval := n.eval * 10 + d }, st.stack, st.range⟩
    | none => endNumber st n c
  | Scan.lit rest v =>
    match rest with
    | [] => none
    | [x] => if c = x then emit st.range v st.stack else none
    | x :: more => if c = x then some ⟨Scan.lit more v, st.stack, st.range⟩ else none

/-- The scanner is run over the characters in turn. -/
def run : St → List Char → Option St
  | st, [] => some st
  | st, c :: cs =>
    match step st c with
    | some st' => run st' cs
    | none => none

/-- The state before the first character. -/
def St.init : St := ⟨Scan.beginValue, [], false⟩

/-- The end of input (`scanner.eof`): a complete result stands, otherwise one
space is scanned to end a number and the result must then be complete. -/
def finish (st : St) : Option (Json × Bool) :=
  match st.scan with
  | Scan.endTop v => some (v, st.range)
  | _ =>
    match step st ' ' with
    | some st' =>
      match st'.scan with
      | Scan.endTop v => some (v, st'.range)
      | _ => none
    | none => none

/-- The value a JSON text denotes and whether one of its numbers is out of
`float64` range; `none` when the text is not valid JSON. -/
def jsonParse (data : String) : Option (Json × Bool) :=
  match run St.init data.toList with
  | some st => finish st
  | none => none

/-- The function `json.Valid`: the text passes the scanner. -/
def jsonValid (data : String) : Bool :=
  (jsonParse data).isSome

/-- The errors of `json.Unmarshal` into an `interface{}`. -/
inductive JsonError where
  | malformed
  | outOfRange
  deriving DecidableEq

/-- The call `json.Unmarshal(data, &v)` for `v` an `interface{}`: a
`SyntaxError` when the text does not pass the scanner, an
`UnmarshalTypeError` when a number does not fit a `float64`, else the decoded
value. -/
def jsonUnmarshal (data : String) : Except JsonError Json :=
  match jsonParse data with
  | none => Except.error JsonError.malformed
  | some (_, true) => Except.error JsonError.outOfRange
  | some (v, false) => Except.ok v

/-! ## Go strings that hold arbitrary bytes

Percent-decoding works on bytes and may leave bytes that are not UTF-8. A
byte is a natural number below 256. -/

/-- The UTF-8 encoding of a character. -/
def utf8EncodeChar (c : Char) : List Nat :=
  let n := c.toNat
  if n < 0x80 then [n]
  else if n < 0x800 then [0xC0 + n / 0x40, 0x80 + n % 0x40]
  else if n < 0x10000 then [0xE0 + n / 0x1000, 0x80 + n / 0x40 % 0x40, 0x80 + n % 0x40]
  else [0xF0 + n / 0x40000, 0x80 + n / 0x1000 % 0x40, 0x80 + n / 0x40 % 0x40, 0x80 + n % 0x40]

/-- The bytes of a text. -/
def utf8Bytes (s : String) : List Nat :=
  s.toList.flatMap utf8EncodeChar

/-- Whether a byte is a UTF-8 continuation byte. -/
def isCont (b : Nat) : Bool :=
  decide (0x80 ≤ b ∧ b ≤ 0xBF)

/-- The text the JSON encoder writes for a Go string: well-formed UTF-8
sequences are their characters (`utf8.DecodeRune`), every other byte is
U+FFFD. -/
def utf8Decode : List Nat → List Char
  | [] => []
  | [b0] => [if b0 < 0x80 then Char.ofNat b0 else Char.ofNat 0xFFFD]
  | b0 :: b1 :: rest =>
    if b0 < 0x80 then Char.ofNat b0 :: utf8Decode (b1 :: rest)
    else if 0xC2 ≤ b0 ∧ b0 ≤ 0xDF ∧ isCont b1 then
      Char.ofNat ((b0 - 0xC0) * 0x40 + (b1 - 0x80)) :: utf8Decode rest
    else
      match rest with
      | [] => [Char.ofNat 0xFFFD, if b1 < 0x80 then Char.ofNat b1 else Char.ofNat 0xFFFD]
      | b2 :: rest2 =>
        let lo := if b0 = 0xE0 then 0xA0 else if b0 = 0xF0 then 0x90 else 0x80
        let hi := if b0 = 0xED then 0x9F else if b0 = 0xF4 then 0x8F else 0xBF
        if 0xE0 ≤ b0 ∧ b0 ≤ 0xEF ∧ lo ≤ b1 ∧ b1 ≤ hi ∧ isCont b2 then
          Char.ofNat ((b0 - 0xE0) * 0x1000 + (b1 - 0x80) * 0x40 + (b2 - 0x80))
            :: utf8Decode rest2
        else
          match rest2 with
          | [] => Char.ofNat 0xFFFD :: utf8Decode [b1, b2]
          | b3 :: rest3 =>
            if 0xF0 ≤ b0 ∧ b0 ≤ 0xF4 ∧ lo ≤ b1 ∧ b1 ≤ hi ∧ isCont b2 ∧ isCont b3 then
              Char.ofNat ((b0 - 0xF0) * 0x40000 + (b1 - 0x80) * 0x1000 + (b2 - 0x80) * 0x40
                + (b3 - 0x80)) :: utf8Decode rest3
            else Char.ofNat 0xFFFD :: utf8Decode (b1 :: b2 :: b3 :: rest3)

/-- The text shown for a Go string given by its bytes. -/
def goText (b : List Nat) : String :=
  String.mk (utf8Decode b)

/-! ## `net/url`: the query string -/

/-- A `url.Values` or `http.Header`: a `map[string][]string`, as the list of
its entries. A key is looked up at its first entry. -/
abbrev StringsMap (κ : Type) := List (κ × List κ)

/-- The values stored under a key, `none` when the key is absent. -/
def StringsMap.lookup {κ : Type} [DecidableEq κ] (m : StringsMap κ) (k : κ) :
    Option (List κ) :=
  (m.find? (fun p => p.1 = k)).map Prod.snd

/-- The statement `m[key] = append(m[key], value)`. -/
def StringsMap.add {κ : Type} [DecidableEq κ] : StringsMap κ → κ → κ → StringsMap κ
  | [], k, v => [(k, [v])]
  | (k', vs) :: rest, k, v =>
    if k' = k then (k', vs ++ [v]) :: rest else (k', vs) :: StringsMap.add rest k v

/-- The pieces of a byte string between the separators `sep`. -/
def splitBytes (sep : Nat) : List Nat → List (List Nat)
  | [] => [[]]
  | b :: rest =>
    if b = sep then [] :: splitBytes sep rest
    else
      match splitBytes sep rest with
      | [] => [[b]]
      | piece :: pieces => (b :: piece) :: pieces

/-- The call `strings.Cut(s, sep)` without its flag: the text before the
first `sep` and the text after it; all of `s` and nothing when there is no
`sep`. -/
def cutBytes (sep : Nat) : List Nat → List Nat × List Nat
  | [] => ([], [])
  | b :: rest =>
    if b = sep then ([], rest)
    else ((cutBytes sep rest).1.cons b, (cutBytes sep rest).2)

/-- The value of a hexadecimal digit byte (`ishex`, `unhex`). -/
def unhex (b : Nat) : Option Nat :=
  if 0x30 ≤ b ∧ b ≤ 0x39 then some (b - 0x30)
  else if 0x61 ≤ b ∧ b ≤ 0x66 then some (b - 0x61 + 10)
  else if 0x41 ≤ b ∧ b ≤ 0x46 then some (b - 0x41 + 10)
  else none

/-- The function `url.QueryUnescape`: `%XX` is the byte `XX`, `+` is a space;
`none` is the `EscapeError` for a `%` not followed by two hexadecimal
digits. -/
def queryUnescape : List Nat → Option (List Nat)
  | [] => some []
  | [b] => if b = 0x25 then none else if b = 0x2B then some [0x20] else some [b]
  | [b, c] =>
    if b = 0x25 then none
    else (queryUnescape [c]).map (fun t => (if b = 0x2B then 0x20 else b) :: t)
  | b :: c :: d :: rest =>
    if b = 0x25 then
      match unhex c, unhex d with
      | some x, some y => (queryUnescape rest).map (fun t => (x * 16 + y) :: t)
      | _, _ => none
    else (queryUnescape (c :: d :: rest)).map (fun t => (if b = 0x2B then 0x20 else b) :: t)

/-- One `&`-separated piece of a query as `parseQuery` reads it: `none` (the
piece is skipped) when it holds a `;`, is empty, or its key or value has a
malformed escape; else the decoded key and value. -/
def parsePair (piece : List Nat) : Option (List Nat × List Nat) :=
  if 0x3B ∈ piece then none
  else if piece = [] then none
  else
    match queryUnescape (cutBytes 0x3D piece).1 with
    | none => none
    | some key =>
      match queryUnescape (cutBytes 0x3D piece).2 with
      | none => none
      | some value => some (key, value)

/-- The loop of `url.parseQuery` over the pieces of the query: every piece
that parses adds its value under its key. -/
def parsePieces (m : StringsMap (List Nat)) : List (List Nat) → StringsMap (List Nat)
  | [] => m
  | piece :: pieces =>
    match parsePair piece with
    | none => parsePieces m pieces
    | some (key, value) => parsePieces (m.add key value) pieces

/-- The function `url.ParseQuery` without its error, which `URL.Query`
drops. -/
def parseQuery (query : List Nat) : StringsMap (List Nat) :=
  parsePieces [] (splitBytes 0x26 query)

/-- The values of the pairs with key `k`, in the order of the pairs. -/
def valuesOf {κ : Type} [DecidableEq κ] (ps : List (κ × κ)) (k : κ) : List κ :=
  (ps.filter (fun p => p.1 = k)).map Prod.snd

/-- The decoded key and value of every piece of a query that parses, in the
order of the query. -/
def queryPairs (query : List Nat) : List (List Nat × List Nat) :=
  (splitBytes 0x26 query).filterMap parsePair

/-- The fields of a `url.URL` the handlers use: `Path`, `RawQuery`, and the
text `String()` returns. -/
structure URL where
  Path : String
  RawQuery : String
  text : String

/-- The method `URL.Query`: the parsed query, keys and values shown as
text. -/
def URL.Query (u : URL) : StringsMap String :=
  (parseQuery (utf8Bytes u.RawQuery)).map
    (fun p => (goText p.1, p.2.map goText))

/-! ## `net/http`: requests and response writers -/

/-- What `io.ReadAll(r.Body)` returns when it is called: the text read, and
the error if the read failed. -/
structure ReadResult where
  data : String
  err : Option String

/-- The fields of an `http.Request` the handlers use. -/
structure Request where
  Method : String
  URL : URL
  Header : StringsMap String
  Body : ReadResult
  ContentLength : Int
  RemoteAddr : String
  Host : String

/-- The method `Header.Get`: the first value under the key, or the empty
string. The key `Content-Type` is in canonical form already. -/
def headerGet (h : StringsMap String) (key : String) : String :=
  match h.lookup key with
  | some (v :: _) => v
  | _ => ""

/-- The function `strings.Contains`. -/
def stringsContains (s substr : String) : Bool :=
  decide (substr.toList <:+: s.toList)

/-- An `http.ResponseWriter`: the header map, the status line once it is
written together with the header sent with it, and the values encoded to the
body (none when nothing was written: the body is empty). -/
structure ResponseWriter where
  header : StringsMap String
  wrote : Option (Nat × StringsMap String)
  body : List Json

/-- A writer nothing was written to. -/
def ResponseWriter.new : ResponseWriter := ⟨[], none, []⟩

/-- The statement `w.Header().Set(key, value)`. -/
def ResponseWriter.setHeader (w : ResponseWriter) (key value : String) : ResponseWriter :=
  { w with header := (key, [value]) :: w.header.filter (fun p => p.1 ≠ key) }

/-- The method `WriteHeader`: the first call sends the status code and the
header; a later call changes nothing. -/
def ResponseWriter.writeHeader (w : ResponseWriter) (code : Nat) : ResponseWriter :=
  match w.wrote with
  | some _ => w
  | none => { w with wrote := some (code, w.header) }

/-- Whether `json.Encoder.Encode` marshals the value. It returns an error,
and writes nothing, for a document nested deeper than `maxNestingDepth`; the
values the handlers build have no other way to fail. -/
def jsonEncodes (v : Json) : Bool :=
  decide (v.depth ≤ maxNestingDepth)

/-- The statement `json.NewEncoder(w).Encode(v)` with its error discarded:
when the value marshals, one `Write`, which sends status 200 first when no
status was written; when it does not, nothing is written. -/
def ResponseWriter.encode (w : ResponseWriter) (v : Json) : ResponseWriter :=
  if jsonEncodes v then
    { w.writeHeader 200 with body := (w.writeHeader 200).body ++ [v] }
  else w

/-- The status code the client receives. -/
def ResponseWriter.status (w : ResponseWriter) : Option Nat :=
  w.wrote.map Prod.fst

/-- The value of a header the client receives. -/
def ResponseWriter.sentHeader (w : ResponseWriter) (key : String) : Option (List String) :=
  match w.wrote with
  | some (_, h) => h.lookup key
  | none => none

/-! ## The handlers of `main.go` -/

/-- The struct `RequestInfo`. `Body` is an `interface{}`; `Json.null` is the
nil interface. -/
structure RequestInfo where
  Method : String
  URL : String
  Headers : StringsMap String
  QueryParams : StringsMap String
  Body : Json
  RemoteAddr : String
  ContentLength : Int
  Host : String

/-- The struct `WebhookResponse`. `Received` is an `interface{}`: nothing, or
a `RequestInfo`. -/
structure WebhookResponse where
  Status : String
  Message : String
  Timestamp : String
  Received : Option RequestInfo

/-- The JSON of a `map[string][]string`. -/
def encodeStringsMap (m : StringsMap String) : Json :=
  Json.obj (m.map (fun p => (p.1, Json.arr (p.2.map Json.str))))

/-- The JSON of a `map[string]string`. -/
def encodeStringMap (m : List (String × String)) : Json :=
  Json.obj (m.map (fun p => (p.1, Json.str p.2)))

/-- The JSON of an `int64`. -/
def encodeInt (n : Int) : Json :=
  Json.num (decide (n < 0)) n.natAbs 0

/-- The JSON of a `RequestInfo`, by its field tags: `body` has `omitempty`
and is left out when the interface is nil. -/
def RequestInfo.encode (r : RequestInfo) : Json :=
  Json.obj (
    [("method", Json.str r.Method),
     ("url", Json.str r.URL),
     ("headers", encodeStringsMap r.Headers),
     ("query_params", encodeStringsMap r.QueryParams)]
    ++ (if r.Body.isNull then [] else [("body", r.Body)])
    ++ [("remote_addr", Json.str r.RemoteAddr),
        ("content_length", encodeInt r.ContentLength),
        ("host", Json.str r.Host)])

/-- The JSON of a `WebhookResponse`, by its field tags: `received` has
`omitempty` and is left out when the interface is nil. -/
def WebhookResponse.encode (r : WebhookResponse) : Json :=
  Json.obj (
    [("status", Json.str r.Status),
     ("message", Json.str r.Message),
     ("timestamp", Json.str r.Timestamp)]
    ++ (match r.Received with
        | none => []
        | some info => [("received", info.encode)]))

/-- What a handler does to the request body. -/
inductive BodyOp where
  | readAll
  | close
  deriving DecidableEq

/-- The outcome of `webhookHandler`: the response writer, the operations on
the request body in the order they ran, and the `RequestInfo` it built. -/
structure Handled where
  w : ResponseWriter
  bodyOps : List BodyOp
  info : RequestInfo

/-- Lines 60-88 of `webhookHandler`: `bodyData` and the operations on the
request body. The body is read only when `ContentLength > 0`; a read error
leaves `bodyData` nil; a JSON content type makes the text go through
`json.Unmarshal`, whose failure falls back to the text. -/
def readBodyData (r : Request) : Json × List BodyOp :=
  if r.ContentLength > 0 then
    match r.Body.err with
    | some _ => (Json.null, [BodyOp.readAll, BodyOp.close])
    | none =>
      let bodyStr := r.Body.data
      let contentType := headerGet r.Header "Content-Type"
      if stringsContains contentType "application/json" then
        match jsonUnmarshal bodyStr with
        | Except.ok jsonData => (jsonData, [BodyOp.readAll, BodyOp.close])
        | Except.error _ => (Json.str bodyStr, [BodyOp.readAll, BodyOp.close])
      else (Json.str bodyStr, [BodyOp.readAll, BodyOp.close])
  else (Json.null, [])

/-- The handler `webhookHandler`; `now` is `time.Now()` in the layout
`2006-01-02 15:04:05` when the response is built. -/
def webhookHandler (w : ResponseWriter) (r : Request) (now : String) : Handled :=
  let bodyData := readBodyData r
  let requestInfo : RequestInfo :=
    { Method := r.Method
      URL := r.URL.text
      Headers := r.Header
      QueryParams := r.URL.Query
      Body := bodyData.1
      RemoteAddr := r.RemoteAddr
      ContentLength := r.ContentLength
      Host := r.Host }
  let response : WebhookResponse :=
    { Status := "success"
      Message := "Webhook 接收成功"
      Timestamp := now
      Received := some requestInfo }
  let w1 := w.setHeader "Content-Type" "application/json"
  let w2 := w1.writeHeader 200
  ⟨w2.encode response.encode, bodyData.2, requestInfo⟩

/-- The handler `healthHandler`. -/
def healthHandler (w : ResponseWriter) (_r : Request) (now : String) : ResponseWriter :=
  let response : List (String × String) :=
    [("status", "ok"),
     ("message", "Webhook 服务运行正常"),
     ("time", now)]
  (w.setHeader "Content-Type" "application/json").encode (encodeStringMap response)

/-- The handler `main` registers for the pattern `/`. -/
def rootHandler (w : ResponseWriter) (_r : Request) : ResponseWriter :=
  let response : List (String × String) :=
    [("message", "Webhook 服务"),
     ("version", "1.0.0"),
     ("endpoints", "/api/callback, /health")]
  (w.setHeader "Content-Type" "application/json").encode (encodeStringMap response)

/-! ## `net/http`: the routes of `main` -/

/-- The three handlers. -/
inductive HandlerId where
  | webhook
  | health
  | root
  deriving DecidableEq

/-- The registrations of `main`, in order: pattern and handler. -/
def routes : List (String × HandlerId) :=
  [("/api/callback", HandlerId.webhook),
   ("/health", HandlerId.health),
   ("/", HandlerId.root)]

/-- The longer of two candidate patterns, the earlier on a tie. -/
def longerPattern (best : Option (String × HandlerId)) (e : String × HandlerId) :
    Option (String × HandlerId) :=
  match best with
  | none => some e
  | some b => if b.1.length < e.1.length then some e else some b

/-- The method `ServeMux.match` on a path in canonical form: a pattern equal
to the path wins; else the longest pattern that ends in `/` and is a prefix of
the path; else nothing (`NotFound`). -/
def muxMatch (table : List (String × HandlerId)) (path : String) : Option HandlerId :=
  match table.find? (fun e => e.1 = path) with
  | some e => some e.2
  | none =>
    ((table.filter (fun e => e.1.toList.getLast? = some '/' ∧ e.1.toList <+: path.toList)).foldl
      longerPattern none).map Prod.snd

/-! ## What the client receives -/

/-- The JSON document of the response: the first value encoded to the
body. -/
def ResponseWriter.json (w : ResponseWriter) : Option Json :=
  w.body.head?

/-- A member of the response document. -/
def ResponseWriter.field (w : ResponseWriter) (key : String) : Option Json :=
  w.json.bind (fun j => j.get? key)

/-- The member `received` of the response document. -/
def Handled.received (h : Handled) : Option Json :=
  h.w.field "received"

/-- A member of the `received` object of the response document. -/
def Handled.receivedField (h : Handled) (key : String) : Option Json :=
  h.received.bind (fun j => j.get? key)

/-- The `RequestInfo` of a request whose `bodyData` is `body`. -/
def requestInfoOf (r : Request) (body : Json) : RequestInfo :=
  { Method := r.Method
    URL := r.URL.text
    Headers := r.Header
    QueryParams := r.URL.Query
    Body := body
    RemoteAddr := r.RemoteAddr
    ContentLength := r.ContentLength
    Host := r.Host }

/-- The document `webhookHandler` passes to `Encode`: the `WebhookResponse`
with the `RequestInfo` of the request as `received`. -/
def responseOf (r : Request) (now : String) : Json :=
  WebhookResponse.encode
    { Status := "success"
      Message := "Webhook 接收成功"
      Timestamp := now
      Received := some (requestInfoOf r (readBodyData r).1) }

/-- The header of every response. -/
def jsonHeader : StringsMap String := [("Content-Type", ["application/json"])]

/-! ## Sample requests -/

/-- A `POST /api/callback` with the given content type and body, the declared
length being the byte length of the body. -/
def postRequest (contentType body : String) : Request :=
  { Method := "POST"
    URL := ⟨"/api/callback", "", "/api/callback"⟩
    Header := [("Content-Type", [contentType])]
    Body := ⟨body, none⟩
    ContentLength := body.utf8ByteSize
    RemoteAddr := "192.0.2.1:40000"
    Host := "localhost:8080" }

/-- A `GET /api/callback?query` without a body. -/
def getRequest (query : String) : Request :=
  { Method := "GET"
    URL := ⟨"/api/callback", query, "/api/callback?" ++ query⟩
    Header := [("Accept", ["text/html", "application/json"]), ("X-Tag", ["b", "a", "b"])]
    Body := ⟨"", none⟩
    ContentLength := 0
    RemoteAddr := "192.0.2.1:40000"
    Host := "localhost:8080" }

/-- The JSON text of an object with the one member `a` of value 1. -/
def objectText : String := "\x7b\"a\":1\x7d"

/-- The text of `objectText` cut off after the colon. -/
def truncatedText : String := "\x7b\"a\":"

/-- The text `objectText` sent as JSON. -/
def jsonPost : Request := postRequest "application/json" objectText

/-- The text `truncatedText` sent as JSON. -/
def truncatedPost : Request := postRequest "application/json; charset=utf-8" truncatedText

/-- The text `objectText` sent as plain text. -/
def plainPost : Request := postRequest "text/plain" objectText

/-- The request `jsonPost` with an unknown content length. -/
def unknownLengthPost : Request := { jsonPost with ContentLength := -1 }

/-- The request `jsonPost` whose body read fails after `truncatedText`
arrived. -/
def brokenPost : Request := { jsonPost with Body := ⟨truncatedText, some "unexpected EOF"⟩ }

/-- The number `1e400`, valid JSON and beyond the `float64` range, sent as
JSON. -/
def outOfRangePost : Request := postRequest "application/json" "1e400"

/-- A query whose first pair for `a` has a `;` in its value and whose second
pair for `b` has a malformed escape. -/
def droppedPairsGet : Request := getRequest "a=1;2&a=3&b=4&b=%zz"

/-- A query that repeats a parameter, with a repeated value. -/
def repeatedGet : Request := getRequest "a=1&b=x+y&a=2&a=1"

/-- Follows the spec's words ("the full list of that parameter's values in
the order they appear in the query string"): the query string is split at
`&`, each piece at its first `=`, and the values of the pieces named `name`
are listed in order. -/
def specQueryValues (query name : String) : List String :=
  valuesOf
    ((splitBytes 0x26 (utf8Bytes query)).map
      (fun piece => (goText (cutBytes 0x3D piece).1, goText (cutBytes 0x3D piece).2)))
    name

/-- The value `v` inside `n` arrays of one element, one inside the other. -/
def nestOver : Nat → Json → Json
  | 0, v => v
  | n + 1, v => nestOver n (Json.arr [v])

/-- The JSON text of 10000 arrays one inside the other, the innermost empty:
10000 opening brackets and 10000 closing brackets. -/
def deepText : String :=
  String.mk (List.replicate 10000 '[' ++ List.replicate 10000 ']')

/-- The text `deepText` sent as JSON. -/
def deepPost : Request :=
  { Method := "POST"
    URL := ⟨"/api/callback", "", "/api/callback"⟩
    Header := [("Content-Type", ["application/json"])]
    Body := ⟨deepText, none⟩
    ContentLength := 20000
    RemoteAddr := "192.0.2.1:40000"
    Host := "localhost:8080" }

/-- Whether the characters are the literal `null` with JSON whitespace before
and after it. -/
def isNullChars : List Char → Bool
  | [] => false
  | c :: cs =>
    if isSpace c then isNullChars cs
    else
      match c :: cs with
      | 'n' :: 'u' :: 'l' :: 'l' :: post => post.all isSpace
      | _ => false

/-- Whether a text is the JSON literal `null`, JSON whitespace around it
allowed. -/
def isNullText (s : String) : Bool :=
  isNullChars s.toList

/-- The literal `null` between whitespace, sent as JSON. -/
def nullPost : Request := postRequest "application/json" " null\n"

/-- The empty JSON string `""`, sent as JSON. -/
def emptyStringPost : Request := postRequest "application/json" "\"\""

/-- A scanner state from which the result cannot be null: no literal `null`
is being read and none can start while no container is open, and a complete
result is not null. -/
def NonNull (st : St) : Prop :=
  match st.scan with
  | Scan.endTop v => v.isNull = false
  | Scan.lit _ v => st.stack ≠ [] ∨ v.isNull = false
  | Scan.beginValue => st.stack ≠ []
  | Scan.beginValueOrEmpty => st.stack ≠ []
  | _ => True

/-! ## Evaluation lemmas -/

theorem float64Limit_eq : float64Limit = 2 ^ 1024 - 2 ^ 970 := by
  norm_num [float64Limit]

theorem depth_arr (xs : List Json) : (Json.arr xs).depth = depthList xs + 1 := by
  simp [Json.depth]

theorem depth_obj (kvs : List (String × Json)) : (Json.obj kvs).depth = depthMembers kvs + 1 := by
  simp [Json.depth]

theorem depth_str (s : String) : (Json.str s).depth = 0 := by
  simp [Json.depth]

theorem depth_num (n : Bool) (m : Nat) (e : Int) : (Json.num n m e).depth = 0 := by
  simp [Json.depth]

theorem depth_null : Json.null.depth = 0 := by
  simp [Json.depth]

theorem depthMembers_cons (k : String) (v : Json) (kvs : List (String × Json)) :
    depthMembers ((k, v) :: kvs) = max v.depth (depthMembers kvs) := by
  simp [depthMembers]

theorem depthList_cons (x : Json) (xs : List Json) :
    depthList (x :: xs) = max x.depth (depthList xs) := by
  simp [depthList]

theorem depthMembers_le (kvs : List (String × Json)) (b : Nat)
    (h : ∀ p ∈ kvs, p.2.depth ≤ b) : depthMembers kvs ≤ b := by
  induction kvs with
  | nil => simp [depthMembers]
  | cons p kvs ih =>
    obtain ⟨k, v⟩ := p
    rw [depthMembers_cons, max_le_iff]
    exact ⟨h (k, v) (List.mem_cons_self _ _),
      ih (fun q hq => h q (List.mem_cons_of_mem _ hq))⟩

theorem depthList_le (xs : List Json) (b : Nat)
    (h : ∀ x ∈ xs, x.depth ≤ b) : depthList xs ≤ b := by
  induction xs with
  | nil => simp [depthList]
  | cons x xs ih =>
    rw [depthList_cons, max_le_iff]
    exact ⟨h x (List.mem_cons_self _ _), ih (fun y hy => h y (List.mem_cons_of_mem _ hy))⟩

theorem depth_le_depthMembers (kvs : List (String × Json)) (p : String × Json)
    (h : p ∈ kvs) : p.2.depth ≤ depthMembers kvs := by
  induction kvs with
  | nil => simp at h
  | cons q kvs ih =>
    obtain ⟨k, v⟩ := q
    rw [depthMembers_cons]
    rcases List.mem_cons.mp h with h1 | h1
    · subst h1
      exact le_max_left _ _
    · exact le_trans (ih h1) (le_max_right _ _)

theorem depth_encodeStringsMap (m : StringsMap String) : (encodeStringsMap m).depth ≤ 2 := by
  unfold encodeStringsMap
  rw [depth_obj]
  have h : depthMembers (m.map (fun p => (p.1, Json.arr (p.2.map Json.str)))) ≤ 1 := by
    apply depthMembers_le
    intro p hp
    obtain ⟨q, _, rfl⟩ := List.mem_map.mp hp
    show (Json.arr (q.2.map Json.str)).depth ≤ 1
    rw [depth_arr]
    have h0 : depthList (q.2.map Json.str) ≤ 0 := by
      apply depthList_le
      intro x hx
      obtain ⟨s, _, rfl⟩ := List.mem_map.mp hx
      rw [depth_str]
    omega
  omega

theorem depth_requestInfo (info : RequestInfo) :
    info.encode.depth ≤ max 3 (info.Body.depth + 1) := by
  unfold RequestInfo.encode
  rw [depth_obj]
  have h : depthMembers
      ([("method", Json.str info.Method), ("url", Json.str info.URL),
        ("headers", encodeStringsMap info.Headers),
        ("query_params", encodeStringsMap info.QueryParams)]
        ++ (if info.Body.isNull then [] else [("body", info.Body)])
        ++ [("remote_addr", Json.str info.RemoteAddr),
            ("content_length", encodeInt info.ContentLength),
            ("host", Json.str info.Host)]) ≤ max 2 info.Body.depth := by
    apply depthMembers_le
    intro p hp
    have h1 := depth_encodeStringsMap info.Headers
    have h2 := depth_encodeStringsMap info.QueryParams
    simp only [List.mem_append, List.mem_cons, List.mem_singleton, List.not_mem_nil,
      or_false] at hp
    rcases hp with ((hp | hp | hp | hp) | hp) | hp | hp | hp
    · subst hp; simp [depth_str]
    · subst hp; simp [depth_str]
    · subst hp; exact le_trans h1 (le_max_left _ _)
    · subst hp; exact le_trans h2 (le_max_left _ _)
    · split at hp
      · simp at hp
      · simp only [List.mem_singleton] at hp
        subst hp
        exact le_max_right _ _
    · subst hp; simp [depth_str]
    · subst hp; simp [depth_num, encodeInt]
    · subst hp; simp [depth_str]
  omega

theorem depth_responseOf (r : Request) (now : String) :
    (responseOf r now).depth ≤ max 4 ((readBodyData r).1.depth + 2) := by
  have h := depth_requestInfo (requestInfoOf r (readBodyData r).1)
  have hb : (requestInfoOf r (readBodyData r).1).Body = (readBodyData r).1 := rfl
  rw [hb] at h
  simp only [responseOf, WebhookResponse.encode, List.cons_append, List.nil_append,
    depth_obj, depthMembers_cons, depth_str]
  have h0 : depthMembers [] = 0 := by simp [depthMembers]
  rw [h0]
  omega

theorem depth_responseOf_ge (r : Request) (now : String)
    (h : (readBodyData r).1.isNull = false) :
    (readBodyData r).1.depth + 2 ≤ (responseOf r now).depth := by
  have hmem : (("body", (readBodyData r).1) : String × Json)
      ∈ [("method", Json.str r.Method), ("url", Json.str r.URL.text),
        ("headers", encodeStringsMap r.Header),
        ("query_params", encodeStringsMap r.URL.Query)]
        ++ (if (readBodyData r).1.isNull then [] else [("body", (readBodyData r).1)])
        ++ [("remote_addr", Json.str r.RemoteAddr),
            ("content_length", encodeInt r.ContentLength),
            ("host", Json.str r.Host)] := by
    simp [h]
  have h1 := depth_le_depthMembers _ _ hmem
  have h0 : depthMembers [] = 0 := by simp [depthMembers]
  simp only [responseOf, WebhookResponse.encode, List.cons_append, List.nil_append,
    depth_obj, depthMembers_cons, depth_str, h0, Nat.zero_max, Nat.max_zero]
  have h2 : (requestInfoOf r (readBodyData r).1).encode.depth
      = depthMembers
        ([("method", Json.str r.Method), ("url", Json.str r.URL.text),
          ("headers", encodeStringsMap r.Header),
          ("query_params", encodeStringsMap r.URL.Query)]
          ++ (if (readBodyData r).1.isNull then [] else [("body", (readBodyData r).1)])
          ++ [("remote_addr", Json.str r.RemoteAddr),
              ("content_length", encodeInt r.ContentLength),
              ("host", Json.str r.Host)]) + 1 := by
    rw [← depth_obj]
    rfl
  rw [h2]
  simp only at h1
  omega

theorem jsonEncodes_responseOf (r : Request) (now : String)
    (h : (readBodyData r).1.depth + 2 ≤ maxNestingDepth) :
    jsonEncodes (responseOf r now) = true := by
  have h1 := depth_responseOf r now
  have h2 : (4 : Nat) ≤ maxNestingDepth := by decide
  unfold jsonEncodes
  simp only [decide_eq_true_eq]
  omega

theorem webhookHandler_w (r : Request) (now : String) :
    (webhookHandler ResponseWriter.new r now).w
      = (ResponseWriter.mk jsonHeader (some (200, jsonHeader)) []).encode
          (responseOf r now) := by
  have hw : (ResponseWriter.new.setHeader "Content-Type" "application/json").writeHeader 200
      = ResponseWriter.mk jsonHeader (some (200, jsonHeader)) [] := rfl
  rw [← hw]
  simp only [webhookHandler, responseOf, requestInfoOf]

theorem webhookHandler_info (w : ResponseWriter) (r : Request) (now : String) :
    (webhookHandler w r now).info = requestInfoOf r (readBodyData r).1 := rfl

theorem webhookHandler_written (r : Request) (now : String)
    (h : jsonEncodes (responseOf r now) = true) :
    (webhookHandler ResponseWriter.new r now).w
      = ResponseWriter.mk jsonHeader (some (200, jsonHeader)) [responseOf r now] := by
  rw [webhookHandler_w]
  simp [ResponseWriter.encode, h, ResponseWriter.writeHeader]

theorem webhookHandler_unwritten (r : Request) (now : String)
    (h : jsonEncodes (responseOf r now) = false) :
    (webhookHandler ResponseWriter.new r now).w
      = ResponseWriter.mk jsonHeader (some (200, jsonHeader)) [] := by
  rw [webhookHandler_w]
  simp [ResponseWriter.encode, h]

theorem webhookHandler_status (r : Request) (now : String) :
    (webhookHandler ResponseWriter.new r now).w.status = some 200
    ∧ (webhookHandler ResponseWriter.new r now).w.sentHeader "Content-Type"
        = some ["application/json"] := by
  cases h : jsonEncodes (responseOf r now)
  · rw [webhookHandler_unwritten r now h]
    exact ⟨rfl, rfl⟩
  · rw [webhookHandler_written r now h]
    exact ⟨rfl, rfl⟩

theorem webhookHandler_received (r : Request) (now : String)
    (h : jsonEncodes (responseOf r now) = true) :
    (webhookHandler ResponseWriter.new r now).received
      = some (requestInfoOf r (readBodyData r).1).encode := by
  unfold Handled.received
  rw [webhookHandler_written r now h]
  rfl

theorem encode_get_body (info : RequestInfo) :
    info.encode.get? "body" = if info.Body.isNull then none else some info.Body := by
  cases h : info.Body.isNull <;> simp [RequestInfo.encode, Json.get?, List.find?, h]

theorem webhookHandler_body (r : Request) (now : String)
    (h : jsonEncodes (responseOf r now) = true) :
    (webhookHandler ResponseWriter.new r now).receivedField "body"
      = if (readBodyData r).1.isNull then none else some (readBodyData r).1 := by
  unfold Handled.receivedField
  rw [webhookHandler_received r now h]
  exact encode_get_body _

theorem webhookHandler_fields (r : Request) (now : String)
    (h : jsonEncodes (responseOf r now) = true) :
    (webhookHandler ResponseWriter.new r now).w.body.length = 1
    ∧ (webhookHandler ResponseWriter.new r now).w.field "status" = some (Json.str "success")
    ∧ (webhookHandler ResponseWriter.new r now).w.field "message"
        = some (Json.str "Webhook 接收成功")
    ∧ (webhookHandler ResponseWriter.new r now).w.field "timestamp" = some (Json.str now) := by
  rw [webhookHandler_written r now h]
  exact ⟨rfl, rfl, rfl, rfl⟩

theorem jsonEncodes_of_depth_zero (r : Request) (now : String)
    (h : (readBodyData r).1.depth = 0) : jsonEncodes (responseOf r now) = true := by
  apply jsonEncodes_responseOf
  rw [h]
  decide

/-! ## The body representation -/

theorem readBodyData_fallback (r : Request) (hlen : r.ContentLength > 0)
    (hread : r.Body.err = none)
    (hjson : stringsContains (headerGet r.Header "Content-Type") "application/json" = true)
    (e : JsonError) (hbad : jsonUnmarshal r.Body.data = Except.error e) :
    (readBodyData r).1 = Json.str r.Body.data := by
  simp [readBodyData, hlen, hread, hjson, hbad]

theorem readBodyData_decoded (r : Request) (hlen : r.ContentLength > 0)
    (hread : r.Body.err = none)
    (hjson : stringsContains (headerGet r.Header "Content-Type") "application/json" = true)
    (v : Json) (hok : jsonUnmarshal r.Body.data = Except.ok v) :
    (readBodyData r).1 = v := by
  simp [readBodyData, hlen, hread, hjson, hok]

theorem jsonUnmarshal_of_invalid (data : String) (hbad : jsonValid data = false) :
    jsonUnmarshal data = Except.error JsonError.malformed := by
  unfold jsonValid at hbad
  unfold jsonUnmarshal
  cases h : jsonParse data with
  | none => rfl
  | some p => simp [h] at hbad

/-- C3: a body read without error under a JSON content type whose text is not
valid JSON is echoed as the JSON string of the raw text, and the request is
still acknowledged with status 200 and status "success". -/
theorem invalid_json_body_is_raw_string (r : Request) (now : String)
    (hlen : r.ContentLength > 0) (hread : r.Body.err = none)
    (hjson : stringsContains (headerGet r.Header "Content-Type") "application/json" = true)
    (hbad : jsonValid r.Body.data = false) :
    (webhookHandler ResponseWriter.new r now).receivedField "body"
        = some (Json.str r.Body.data)
    ∧ (webhookHandler ResponseWriter.new r now).w.status = some 200
    ∧ (webhookHandler ResponseWriter.new r now).w.field "status"
        = some (Json.str "success") := by
  have hbody := readBodyData_fallback r hlen hread hjson _ (jsonUnmarshal_of_invalid _ hbad)
  have henc : jsonEncodes (responseOf r now) = true :=
    jsonEncodes_of_depth_zero r now (by rw [hbody, depth_str])
  refine ⟨?_, (webhookHandler_status r now).1, (webhookHandler_fields r now henc).2.1⟩
  rw [webhookHandler_body r now henc, hbody]
  rfl

/-- The truncated document `truncatedText` sent as JSON comes back as that
text. -/
theorem invalid_json_body_is_raw_string_witness :
    (webhookHandler ResponseWriter.new truncatedPost "t").receivedField "body"
        = some (Json.str truncatedText)
    ∧ (webhookHandler ResponseWriter.new truncatedPost "t").w.status = some 200
    ∧ (webhookHandler ResponseWriter.new truncatedPost "t").w.field "status"
        = some (Json.str "success") :=
  invalid_json_body_is_raw_string truncatedPost "t" (by decide) rfl (by decide) (by decide)

/-- C4: a body read without error under a content type that does not contain
`application/json` is echoed as the JSON string of the raw text, whatever the
text is; no decoding is tried. -/
theorem non_json_body_is_raw_string (r : Request) (now : String)
    (hlen : r.ContentLength > 0) (hread : r.Body.err = none)
    (hplain : stringsContains (headerGet r.Header "Content-Type") "application/json" = false) :
    (webhookHandler ResponseWriter.new r now).receivedField "body"
      = some (Json.str r.Body.data) := by
  have hbody : (readBodyData r).1 = Json.str r.Body.data := by
    simp [readBodyData, hlen, hread, hplain]
  have henc : jsonEncodes (responseOf r now) = true :=
    jsonEncodes_of_depth_zero r now (by rw [hbody, depth_str])
  rw [webhookHandler_body r now henc, hbody]
  rfl

/-- The JSON text of `objectText` sent as `text/plain` comes back as a string, not
as an object. -/
theorem non_json_body_is_raw_string_witness :
    (webhookHandler ResponseWriter.new plainPost "t").receivedField "body"
      = some (Json.str objectText) :=
  non_json_body_is_raw_string plainPost "t" (by decide) rfl (by decide)

/-- C5: with a declared content length of zero or less, `webhookHandler` does
nothing to the request body (no read, no close), `bodyData` stays nil, and
the `received` object has no member `body`, whatever the body and the content
type are. -/
theorem no_body_without_content_length (r : Request) (now : String)
    (hlen : r.ContentLength ≤ 0) :
    (webhookHandler ResponseWriter.new r now).bodyOps = []
    ∧ (webhookHandler ResponseWriter.new r now).info.Body = Json.null
    ∧ (webhookHandler ResponseWriter.new r now).receivedField "body" = none
    ∧ "body" ∉ (webhookHandler ResponseWriter.new r now).info.encode.keys := by
  have hnot : ¬ r.ContentLength > 0 := not_lt.mpr hlen
  have hbody : readBodyData r = (Json.null, []) := by simp [readBodyData, hnot]
  have henc : jsonEncodes (responseOf r now) = true :=
    jsonEncodes_of_depth_zero r now (by rw [hbody, depth_null])
  refine ⟨?_, ?_, ?_, ?_⟩
  · show (readBodyData r).2 = []
    rw [hbody]
  · show (readBodyData r).1 = Json.null
    rw [hbody]
  · rw [webhookHandler_body r now henc, hbody]
    rfl
  · rw [webhookHandler_info, hbody]
    simp [RequestInfo.encode, requestInfoOf, Json.keys, Json.isNull]

/-- An unknown length (`-1`) with a JSON body on the wire: the body is not
read and `body` is absent. -/
theorem no_body_without_content_length_witness :
    (webhookHandler ResponseWriter.new unknownLengthPost "t").bodyOps = []
    ∧ (webhookHandler ResponseWriter.new unknownLengthPost "t").info.Body = Json.null
    ∧ (webhookHandler ResponseWriter.new unknownLengthPost "t").receivedField "body" = none
    ∧ "body" ∉ (webhookHandler ResponseWriter.new unknownLengthPost "t").info.encode.keys :=
  no_body_without_content_length unknownLengthPost "t" (by decide)

/-- C9: when reading the body fails, `bodyData` stays nil and `received` has
no member `body`, whatever was read before the error and whatever the content
type is; the request is still acknowledged with status 200 and status
"success". -/
theorem read_error_leaves_body_absent (r : Request) (now : String)
    (hlen : r.ContentLength > 0) (e : String) (hread : r.Body.err = some e) :
    (webhookHandler ResponseWriter.new r now).info.Body = Json.null
    ∧ (webhookHandler ResponseWriter.new r now).receivedField "body" = none
    ∧ "body" ∉ (webhookHandler ResponseWriter.new r now).info.encode.keys
    ∧ (webhookHandler ResponseWriter.new r now).w.status = some 200
    ∧ (webhookHandler ResponseWriter.new r now).w.field "status"
        = some (Json.str "success") := by
  have hbody : (readBodyData r).1 = Json.null := by simp [readBodyData, hlen, hread]
  have henc : jsonEncodes (responseOf r now) = true :=
    jsonEncodes_of_depth_zero r now (by rw [hbody, depth_null])
  refine ⟨hbody, ?_, ?_, (webhookHandler_status r now).1, (webhookHandler_fields r now henc).2.1⟩
  · rw [webhookHandler_body r now henc, hbody]
    rfl
  · rw [webhookHandler_info, hbody]
    simp [RequestInfo.encode, requestInfoOf, Json.keys, Json.isNull]

/-- A read that fails after `truncatedText` arrived, under a JSON content
type. -/
theorem read_error_leaves_body_absent_witness :
    (webhookHandler ResponseWriter.new brokenPost "t").info.Body = Json.null
    ∧ (webhookHandler ResponseWriter.new brokenPost "t").receivedField "body" = none
    ∧ "body" ∉ (webhookHandler ResponseWriter.new brokenPost "t").info.encode.keys
    ∧ (webhookHandler ResponseWriter.new brokenPost "t").w.status = some 200
    ∧ (webhookHandler ResponseWriter.new brokenPost "t").w.field "status"
        = some (Json.str "success") :=
  read_error_leaves_body_absent brokenPost "t" (by decide) "unexpected EOF" rfl

/-! ## The health and root endpoints -/

/-- C7: for every request `healthHandler` answers with status 200,
`Content-Type: application/json` and a JSON object with exactly the members
`status`, `message` and `time`, where `status` is "ok" and `message` the
fixed text; the root handler answers with status 200, the same content type
and a JSON object with exactly the members `message`, `version` and
`endpoints`, where `version` is "1.0.0" and `endpoints` is
"/api/callback, /health". Neither response depends on the request. -/
theorem health_and_root_responses (r r' : Request) (now : String) :
    (healthHandler ResponseWriter.new r now).status = some 200
    ∧ (healthHandler ResponseWriter.new r now).sentHeader "Content-Type"
        = some ["application/json"]
    ∧ ((healthHandler ResponseWriter.new r now).json.map Json.keys)
        = some ["status", "message", "time"]
    ∧ (healthHandler ResponseWriter.new r now).field "status" = some (Json.str "ok")
    ∧ (healthHandler ResponseWriter.new r now).field "message"
        = some (Json.str "Webhook 服务运行正常")
    ∧ (healthHandler ResponseWriter.new r now).field "time" = some (Json.str now)
    ∧ healthHandler ResponseWriter.new r now = healthHandler ResponseWriter.new r' now
    ∧ (rootHandler ResponseWriter.new r).status = some 200
    ∧ (rootHandler ResponseWriter.new r).sentHeader "Content-Type"
        = some ["application/json"]
    ∧ ((rootHandler ResponseWriter.new r).json.map Json.keys)
        = some ["message", "version", "endpoints"]
    ∧ (rootHandler ResponseWriter.new r).field "message" = some (Json.str "Webhook 服务")
    ∧ (rootHandler ResponseWriter.new r).field "version" = some (Json.str "1.0.0")
    ∧ (rootHandler ResponseWriter.new r).field "endpoints"
        = some (Json.str "/api/callback, /health")
    ∧ rootHandler ResponseWriter.new r = rootHandler ResponseWriter.new r' :=
  ⟨rfl, rfl, rfl, rfl, rfl, rfl, rfl, rfl, rfl, rfl, rfl, rfl, rfl, rfl⟩

/-! ## Routing -/

theorem muxMatch_routes (path : String) :
    muxMatch routes path =
      if path = "/api/callback" then some HandlerId.webhook
      else if path = "/health" then some HandlerId.health
      else if ['/'] <+: path.toList then some HandlerId.root
      else none := by
  by_cases h1 : path = "/api/callback"
  · subst h1; decide
  by_cases h2 : path = "/health"
  · subst h2; decide
  by_cases h3 : path = "/"
  · subst h3; decide
  have h1' : ¬ "/api/callback" = path := fun h => h1 h.symm
  have h2' : ¬ "/health" = path := fun h => h2 h.symm
  have h3' : ¬ "/" = path := fun h => h3 h.symm
  simp only [muxMatch, routes, List.find?, h1', h2', h3', decide_False, h1, h2, if_false]
  by_cases hp : ['/'] <+: path.data <;> simp [List.filter, hp, longerPattern]

/-- Against C6 as stated: the path `/foo` is not `/`, and the routing table of
`main` sends it to the root handler; so it does `/api/callback/`. -/
theorem root_handler_not_exact_counterexample :
    "/foo" ≠ "/" ∧ muxMatch routes "/foo" = some HandlerId.root
    ∧ "/api/callback/" ≠ "/" ∧ muxMatch routes "/api/callback/" = some HandlerId.root := by
  decide

/-- C6, amended: under the routing table of `main` the pattern `/` catches
every path the other two patterns do not: a path in canonical form goes to
the root handler exactly when it begins with `/` and is neither
`/api/callback` nor `/health`; the callback and health handlers are chosen
for exactly their own path. -/
theorem root_handler_is_catch_all (path : String) :
    (muxMatch routes path = some HandlerId.root
      ↔ ['/'] <+: path.toList ∧ path ≠ "/api/callback" ∧ path ≠ "/health")
    ∧ (muxMatch routes path = some HandlerId.webhook ↔ path = "/api/callback")
    ∧ (muxMatch routes path = some HandlerId.health ↔ path = "/health") := by
  rw [muxMatch_routes]
  by_cases h1 : path = "/api/callback"
  · subst h1; decide
  by_cases h2 : path = "/health"
  · subst h2; decide
  by_cases hp : ['/'] <+: path.toList <;> simp [h1, h2, hp]

/-! ## Query parameters and headers -/

theorem parsePieces_eq_foldl (m : StringsMap (List Nat)) (pieces : List (List Nat)) :
    parsePieces m pieces
      = (pieces.filterMap parsePair).foldl (fun acc p => acc.add p.1 p.2) m := by
  induction pieces generalizing m with
  | nil => rfl
  | cons piece pieces ih =>
    unfold parsePieces
    cases h : parsePair piece with
    | none => simp [List.filterMap_cons, h, ih]
    | some p =>
      obtain ⟨key, value⟩ := p
      simp [List.filterMap_cons, h, ih]

theorem lookup_add {κ : Type} [DecidableEq κ] (m : StringsMap κ) (k' v k : κ) :
    (m.add k' v).lookup k
      = if k' = k then some ((m.lookup k).getD [] ++ [v]) else m.lookup k := by
  induction m with
  | nil =>
    by_cases h : k' = k <;> simp [StringsMap.add, StringsMap.lookup, List.find?, h]
  | cons e rest ih =>
    obtain ⟨k0, vs⟩ := e
    unfold StringsMap.lookup at ih ⊢
    by_cases h0 : k0 = k'
    · subst h0
      by_cases h : k0 = k <;> simp [StringsMap.add, List.find?, h]
    · by_cases h : k0 = k
      · subst h
        have : ¬ k' = k0 := fun e => h0 e.symm
        simp [StringsMap.add, List.find?, h0, this]
      · simp [StringsMap.add, List.find?, h0, h, ih]

theorem keys_add {κ : Type} [DecidableEq κ] (m : StringsMap κ) (k v : κ) :
    (m.add k v).map Prod.fst
      = if k ∈ m.map Prod.fst then m.map Prod.fst else m.map Prod.fst ++ [k] := by
  induction m with
  | nil => simp [StringsMap.add]
  | cons e rest ih =>
    obtain ⟨k0, vs⟩ := e
    by_cases h0 : k0 = k
    · subst h0
      simp [StringsMap.add]
    · have h0' : ¬ k = k0 := fun e => h0 e.symm
      simp only [StringsMap.add, h0, if_false, List.map_cons, ih, List.mem_cons, h0', false_or]
      split <;> simp

theorem nodup_keys_add {κ : Type} [DecidableEq κ] (m : StringsMap κ) (k v : κ)
    (h : (m.map Prod.fst).Nodup) : ((m.add k v).map Prod.fst).Nodup := by
  rw [keys_add]
  split
  · exact h
  · rename_i hk
    exact List.nodup_append.mpr ⟨h, List.nodup_singleton k, by
      intro a ha hb
      simp at hb
      exact hk (hb ▸ ha)⟩

theorem nodup_keys_foldl {κ : Type} [DecidableEq κ] (ps : List (κ × κ)) (m : StringsMap κ)
    (h : (m.map Prod.fst).Nodup) :
    (((ps.foldl (fun acc p => StringsMap.add acc p.1 p.2) m)).map Prod.fst).Nodup := by
  induction ps generalizing m with
  | nil => exact h
  | cons p ps ih => exact ih _ (nodup_keys_add m p.1 p.2 h)

theorem valuesOf_cons {κ : Type} [DecidableEq κ] (p : κ × κ) (ps : List (κ × κ)) (k : κ) :
    valuesOf (p :: ps) k = if p.1 = k then p.2 :: valuesOf ps k else valuesOf ps k := by
  by_cases h : p.1 = k <;> simp [valuesOf, List.filter_cons, h]

theorem lookup_foldl {κ : Type} [DecidableEq κ] (ps : List (κ × κ)) (m : StringsMap κ) (k : κ) :
    (ps.foldl (fun acc p => StringsMap.add acc p.1 p.2) m).lookup k
      = match m.lookup k with
        | some vs => some (vs ++ valuesOf ps k)
        | none => if valuesOf ps k = [] then none else some (valuesOf ps k) := by
  induction ps generalizing m with
  | nil => cases h : m.lookup k <;> simp [valuesOf, h]
  | cons p ps ih =>
    obtain ⟨k', v⟩ := p
    rw [List.foldl_cons, ih, lookup_add, valuesOf_cons]
    by_cases hk : k' = k
    · subst hk
      cases h : m.lookup k' <;> simp [h]
    · cases h : m.lookup k <;> simp [h, hk]

theorem parseQuery_lookup (query k : List Nat) :
    (parseQuery query).lookup k
      = if valuesOf (queryPairs query) k = [] then none
        else some (valuesOf (queryPairs query) k) := by
  unfold parseQuery queryPairs
  rw [parsePieces_eq_foldl, lookup_foldl]
  rfl

theorem parseQuery_nodup (query : List Nat) : ((parseQuery query).map Prod.fst).Nodup := by
  unfold parseQuery
  rw [parsePieces_eq_foldl]
  exact nodup_keys_foldl _ [] List.nodup_nil

theorem encodeStringsMap_get (m : StringsMap String) (k : String) :
    (encodeStringsMap m).get? k = (m.lookup k).map (fun vs => Json.arr (vs.map Json.str)) := by
  induction m with
  | nil => rfl
  | cons e rest ih =>
    simp only [encodeStringsMap, Json.get?, StringsMap.lookup, List.map_cons,
      List.find?] at ih ⊢
    by_cases h : e.1 = k
    · simp [h]
    · have hb : (e.1 == k) = false := by simp [h]
      simp only [hb, h, decide_False]
      exact ih

theorem jsonEncodes_of_written (r : Request) (now : String)
    (hw : (webhookHandler ResponseWriter.new r now).w.body.length = 1) :
    jsonEncodes (responseOf r now) = true := by
  cases h : jsonEncodes (responseOf r now)
  · rw [webhookHandler_unwritten r now h] at hw
    simp at hw
  · rfl

theorem written_of_depth (r : Request) (now : String)
    (h : (readBodyData r).1.depth + 2 ≤ maxNestingDepth) :
    (webhookHandler ResponseWriter.new r now).w.body.length = 1 :=
  (webhookHandler_fields r now (jsonEncodes_responseOf r now h)).1

theorem webhookHandler_headers (r : Request) (now : String)
    (h : jsonEncodes (responseOf r now) = true) :
    (webhookHandler ResponseWriter.new r now).receivedField "headers"
      = some (encodeStringsMap r.Header) := by
  unfold Handled.receivedField
  rw [webhookHandler_received r now h]
  cases hn : (readBodyData r).1.isNull <;>
    simp [RequestInfo.encode, requestInfoOf, Json.get?, List.find?, hn]

theorem webhookHandler_query (r : Request) (now : String)
    (h : jsonEncodes (responseOf r now) = true) :
    (webhookHandler ResponseWriter.new r now).receivedField "query_params"
      = some (encodeStringsMap r.URL.Query) := by
  unfold Handled.receivedField
  rw [webhookHandler_received r now h]
  cases hn : (readBodyData r).1.isNull <;>
    simp [RequestInfo.encode, requestInfoOf, Json.get?, List.find?, hn]

/-- Against C8 as stated: the values `1;2` of `a` and `%zz` of `b` are in the
query string and not in the response: `a` and `b` have two values each in the
request and one each in `received.query_params`. -/
theorem query_values_dropped_counterexample :
    specQueryValues droppedPairsGet.URL.RawQuery "a" = ["1;2", "3"]
    ∧ ((webhookHandler ResponseWriter.new droppedPairsGet "t").receivedField
          "query_params").bind (fun j => j.get? "a") = some (Json.arr [Json.str "3"])
    ∧ specQueryValues droppedPairsGet.URL.RawQuery "b" = ["4", "%zz"]
    ∧ ((webhookHandler ResponseWriter.new droppedPairsGet "t").receivedField
          "query_params").bind (fun j => j.get? "b") = some (Json.arr [Json.str "4"]) :=
  ⟨by rfl, by rfl, by rfl, by rfl⟩


/-- C8, amended: whenever the response document is written, which it is when
the decoded body nests at most 9998 levels deep, `received.headers` has every
header name of the request with the list of its values in the order received,
and `received.query_params` has one member for every key of the pairs of the
query string that parse (a pair is dropped when it holds a `;` or when its key
or value has a malformed percent-escape), whose value is the list of the
decoded values of all such pairs with that key, in the order of the query
string; nothing is collapsed, deduplicated or reordered. -/
theorem multi_values_preserved (r : Request) (now : String) :
    ((readBodyData r).1.depth + 2 ≤ maxNestingDepth →
      (webhookHandler ResponseWriter.new r now).w.body.length = 1)
    ∧ ((webhookHandler ResponseWriter.new r now).w.body.length = 1 →
      (webhookHandler ResponseWriter.new r now).receivedField "headers"
          = some (encodeStringsMap r.Header)
      ∧ (webhookHandler ResponseWriter.new r now).receivedField "query_params"
          = some (Json.obj ((parseQuery (utf8Bytes r.URL.RawQuery)).map
              (fun p => (goText p.1, Json.arr (p.2.map (fun v => Json.str (goText v))))))))
    ∧ (∀ name : String, (encodeStringsMap r.Header).get? name
        = (r.Header.lookup name).map (fun vs => Json.arr (vs.map Json.str)))
    ∧ ((parseQuery (utf8Bytes r.URL.RawQuery)).map Prod.fst).Nodup
    ∧ (∀ key : List Nat, (parseQuery (utf8Bytes r.URL.RawQuery)).lookup key
        = if valuesOf (queryPairs (utf8Bytes r.URL.RawQuery)) key = [] then none
          else some (valuesOf (queryPairs (utf8Bytes r.URL.RawQuery)) key)) := by
  refine ⟨written_of_depth r now, ?_, encodeStringsMap_get r.Header, parseQuery_nodup _,
    parseQuery_lookup _⟩
  intro hw
  have henc := jsonEncodes_of_written r now hw
  refine ⟨webhookHandler_headers r now henc, ?_⟩
  rw [webhookHandler_query r now henc]
  simp [encodeStringsMap, URL.Query, List.map_map, Function.comp_def]

/-- A parameter given three times, twice with the same value, and a header
with three values keep all values in order. -/
theorem multi_values_preserved_witness :
    (webhookHandler ResponseWriter.new repeatedGet "t").w.body.length = 1
    ∧ ((webhookHandler ResponseWriter.new repeatedGet "t").receivedField "headers"
          = some (encodeStringsMap repeatedGet.Header)
      ∧ (webhookHandler ResponseWriter.new repeatedGet "t").receivedField "query_params"
          = some (Json.obj [("a", Json.arr [Json.str "1", Json.str "2", Json.str "1"]),
              ("b", Json.arr [Json.str "x y"])])) :=
  ⟨(multi_values_preserved repeatedGet "t").1 (by decide),
   (multi_values_preserved repeatedGet "t").2.1
     ((multi_values_preserved repeatedGet "t").1 (by decide))⟩

/-! ## JSON bodies -/

/-- Against C2 as stated: the body `1e400` is valid JSON and denotes a number,
yet under a JSON content type `received.body` is the string "1e400". -/
theorem valid_json_not_decoded_counterexample :
    outOfRangePost.ContentLength > 0
    ∧ outOfRangePost.Body.err = none
    ∧ stringsContains (headerGet outOfRangePost.Header "Content-Type") "application/json" = true
    ∧ jsonValid outOfRangePost.Body.data = true
    ∧ (jsonParse outOfRangePost.Body.data).map Prod.fst = some (Json.num false 1 400)
    ∧ (webhookHandler ResponseWriter.new outOfRangePost "t").receivedField "body"
        = some (Json.str "1e400")
    ∧ (webhookHandler ResponseWriter.new outOfRangePost "t").receivedField "body"
        ≠ (jsonParse outOfRangePost.Body.data).map Prod.fst := by
  refine ⟨by decide, rfl, by decide, by rfl, by rfl, by rfl, ?_⟩
  have h1 : (webhookHandler ResponseWriter.new outOfRangePost "t").receivedField "body"
      = some (Json.str "1e400") := by rfl
  have h2 : (jsonParse outOfRangePost.Body.data).map Prod.fst = some (Json.num false 1 400) := by
    rfl
  rw [h1, h2]
  simp

theorem jsonUnmarshal_of_parse (data : String) (v : Json)
    (h : jsonParse data = some (v, false)) : jsonUnmarshal data = Except.ok v := by
  simp [jsonUnmarshal, h]

theorem jsonUnmarshal_of_range (data : String) (v : Json)
    (h : jsonParse data = some (v, true)) :
    jsonUnmarshal data = Except.error JsonError.outOfRange := by
  simp [jsonUnmarshal, h]

/-- C2, amended: for a body read without error under a JSON content type,
when the text is valid JSON and every number in it fits a `float64`, the
response document is written if the decoded value nests at most 9998 levels
deep, and whenever it is written `received.body` is the decoded value (left
out when that value is null); when the text is valid JSON with a number
beyond the `float64` range, the document is written and `received.body` is
the raw text as a string. -/
theorem json_body_is_decoded (r : Request) (now : String)
    (hlen : r.ContentLength > 0) (hread : r.Body.err = none)
    (hjson : stringsContains (headerGet r.Header "Content-Type") "application/json" = true) :
    (∀ v : Json, jsonParse r.Body.data = some (v, false) →
      (v.depth + 2 ≤ maxNestingDepth →
        (webhookHandler ResponseWriter.new r now).w.body.length = 1)
      ∧ ((webhookHandler ResponseWriter.new r now).w.body.length = 1 →
        (webhookHandler ResponseWriter.new r now).receivedField "body"
          = if v.isNull then none else some v))
    ∧ (∀ v : Json, jsonParse r.Body.data = some (v, true) →
      (webhookHandler ResponseWriter.new r now).w.body.length = 1
      ∧ (webhookHandler ResponseWriter.new r now).receivedField "body"
          = some (Json.str r.Body.data)) := by
  constructor
  · intro v hv
    have hbody := readBodyData_decoded r hlen hread hjson v (jsonUnmarshal_of_parse _ v hv)
    constructor
    · intro hd
      exact written_of_depth r now (by rw [hbody]; exact hd)
    · intro hw
      rw [webhookHandler_body r now (jsonEncodes_of_written r now hw), hbody]
  · intro v hv
    have hbody := readBodyData_fallback r hlen hread hjson _ (jsonUnmarshal_of_range _ v hv)
    have henc : jsonEncodes (responseOf r now) = true :=
      jsonEncodes_of_depth_zero r now (by rw [hbody, depth_str])
    refine ⟨(webhookHandler_fields r now henc).1, ?_⟩
    rw [webhookHandler_body r now henc, hbody]
    rfl

/-- The spec's example: the body `objectText` sent as JSON comes back as the
object with member `a` of value 1. -/
theorem json_body_is_decoded_witness :
    (webhookHandler ResponseWriter.new jsonPost "t").receivedField "body"
      = some (Json.obj [("a", Json.num false 1 0)]) :=
  ((json_body_is_decoded jsonPost "t" (by decide) rfl (by decide)).1
    (Json.obj [("a", Json.num false 1 0)]) (by rfl)).2
    (((json_body_is_decoded jsonPost "t" (by decide) rfl (by decide)).1
      (Json.obj [("a", Json.num false 1 0)]) (by rfl)).1 (by decide))

/-! ## The scanner never yields null except for the literal `null` -/

theorem emit_nonNull (range : Bool) (v : Json) (stack : List Frame) (st' : St)
    (hv : stack ≠ [] ∨ v.isNull = false) (h : emit range v stack = some st') :
    NonNull st' := by
  cases stack with
  | nil =>
    simp only [emit, Option.some.injEq] at h
    subst h
    simpa [NonNull] using hv
  | cons f rest =>
    cases f with
    | arr done =>
      simp only [emit, Option.some.injEq] at h
      subst h
      simp [NonNull]
    | obj done key =>
      cases key with
      | some k =>
        simp only [emit, Option.some.injEq] at h
        subst h
        simp [NonNull]
      | none =>
        cases v <;> simp only [emit, Option.some.injEq, reduceCtorEq] at h
        subst h
        simp [NonNull]

theorem close_nonNull (st st' : St) (h : close st = some st') : NonNull st' := by
  unfold close at h
  split at h
  · exact emit_nonNull _ (Json.arr _) _ _ (Or.inr rfl) h
  · exact emit_nonNull _ (Json.obj _) _ _ (Or.inr rfl) h
  · simp at h

theorem push_nonNull (st st' : St) (f : Frame) (next : Scan)
    (h : push st f next = some st') : st'.stack ≠ [] := by
  unfold push at h
  split at h
  · simp only [Option.some.injEq] at h
    subst h
    simp
  · simp at h

theorem nonNull_beginValue (stack : List Frame) (range : Bool) (h : stack ≠ []) :
    NonNull ⟨Scan.beginValue, stack, range⟩ := by
  simpa [NonNull] using h

theorem stepEndValue_nonNull (st st' : St) (c : Char)
    (h : stepEndValue st c = some st') : NonNull st' := by
  unfold stepEndValue at h
  split at h
  · simp only [Option.some.injEq] at h
    subst h
    simp [NonNull]
  · split at h
    · simp at h
    · split at h
      · simp only [Option.some.injEq] at h
        subst h
        apply nonNull_beginValue
        simp_all
      · simp at h
    · split at h
      · simp only [Option.some.injEq] at h
        subst h
        simp [NonNull]
      · split at h
        · exact close_nonNull _ _ h
        · simp at h
    · split at h
      · simp only [Option.some.injEq] at h
        subst h
        apply nonNull_beginValue
        simp_all
      · split at h
        · exact close_nonNull _ _ h
        · simp at h

theorem stepAfterValue_nonNull (st st' : St) (c : Char) (hst : NonNull st)
    (h : stepAfterValue st c = some st') : NonNull st' := by
  unfold stepAfterValue at h
  split at h
  · rename_i v hv
    split at h
    · simp only [Option.some.injEq] at h
      subst h
      simpa [NonNull, hv] using hst
    · simp at h
  · exact stepEndValue_nonNull _ _ _ h

theorem endNumber_nonNull (st st' : St) (n : NumAcc) (c : Char)
    (h : endNumber st n c = some st') : NonNull st' := by
  unfold endNumber at h
  split at h
  · rename_i st1 h1
    exact stepAfterValue_nonNull _ _ _ (emit_nonNull _ (Json.num _ _ _) _ _ (Or.inr rfl) h1) h
  · simp at h

theorem endString_nonNull (st st' : St) (acc : List Char) (hi : Option Nat)
    (h : endString st acc hi = some st') : NonNull st' :=
  emit_nonNull _ (Json.str _) _ _ (Or.inr rfl) h

theorem addFresh_nonNull (acc : List Char) (u : Nat) (stack : List Frame) (range : Bool) :
    NonNull ⟨addFresh acc u, stack, range⟩ := by
  unfold addFresh
  split
  · simp [NonNull]
  · split <;> simp [NonNull]

theorem addUnit_nonNull (acc : List Char) (hi : Option Nat) (u : Nat) (stack : List Frame)
    (range : Bool) : NonNull ⟨addUnit acc hi u, stack, range⟩ := by
  unfold addUnit
  split
  · split
    · simp [NonNull]
    · exact addFresh_nonNull _ _ _ _
  · exact addFresh_nonNull _ _ _ _

theorem stepBeginValue_nonNull (st st' : St) (c : Char)
    (hst : st.stack ≠ [] ∨ (isSpace c = false ∧ c ≠ 'n'))
    (h : stepBeginValue st c = some st') : NonNull st' := by
  unfold stepBeginValue at h
  split at h
  · rename_i hsp
    simp only [Option.some.injEq] at h
    subst h
    rcases hst with hs | hc
    · exact nonNull_beginValue _ _ hs
    · simp [hsp] at hc
  split at h
  · have := push_nonNull _ _ _ _ h
    unfold push at h
    split at h
    · simp only [Option.some.injEq] at h
      subst h
      simp [NonNull]
    · simp at h
  split at h
  · unfold push at h
    split at h
    · simp only [Option.some.injEq] at h
      subst h
      simp [NonNull]
    · simp at h
  split at h
  · simp only [Option.some.injEq] at h
    subst h
    simp [NonNull]
  split at h
  · simp only [Option.some.injEq] at h
    subst h
    simp [NonNull]
  split at h
  · simp only [Option.some.injEq] at h
    subst h
    simp [NonNull]
  split at h
  · simp only [Option.some.injEq] at h
    subst h
    simp [NonNull, Json.isNull]
  split at h
  · simp only [Option.some.injEq] at h
    subst h
    simp [NonNull, Json.isNull]
  split at h
  · rename_i hn
    simp only [Option.some.injEq] at h
    subst h
    rcases hst with hs | hc
    · simp [NonNull, hs]
    · exact absurd hn hc.2
  split at h
  · simp only [Option.some.injEq] at h
    subst h
    simp [NonNull]
  · simp at h

theorem stepBeginString_nonNull (st st' : St) (c : Char)
    (h : stepBeginString st c = some st') : NonNull st' := by
  unfold stepBeginString at h
  split at h
  · simp only [Option.some.injEq] at h
    subst h
    simp [NonNull]
  split at h
  · simp only [Option.some.injEq] at h
    subst h
    simp [NonNull]
  · simp at h

theorem stepZero_nonNull (st st' : St) (n : NumAcc) (c : Char)
    (h : stepZero st n c = some st') : NonNull st' := by
  unfold stepZero at h
  split at h
  · simp only [Option.some.injEq] at h
    subst h
    simp [NonNull]
  split at h
  · simp only [Option.some.injEq] at h
    subst h
    simp [NonNull]
  · exact endNumber_nonNull _ _ _ _ h

theorem stepESign_nonNull (st st' : St) (n : NumAcc) (c : Char)
    (h : stepESign st n c = some st') : NonNull st' := by
  unfold stepESign at h
  split at h
  · simp only [Option.some.injEq] at h
    subst h
    simp [NonNull]
  · simp at h

theorem step_nonNull (st st' : St) (c : Char) (hst : NonNull st)
    (h : step st c = some st') : NonNull st' := by
  unfold step at h
  split at h
  · rename_i hscan
    refine stepBeginValue_nonNull _ _ _ (Or.inl ?_) h
    simpa [NonNull, hscan] using hst
  · rename_i hscan
    split at h
    · simp only [Option.some.injEq] at h
      subst h
      exact hst
    split at h
    · exact close_nonNull _ _ h
    · refine stepBeginValue_nonNull _ _ _ (Or.inl ?_) h
      simpa [NonNull, hscan] using hst
  · split at h
    · simp only [Option.some.injEq] at h
      subst h
      exact hst
    split at h
    · exact close_nonNull _ _ h
    · exact stepBeginString_nonNull _ _ _ h
  · exact stepBeginString_nonNull _ _ _ h
  · exact stepEndValue_nonNull _ _ _ h
  · rename_i v hscan
    split at h
    · simp only [Option.some.injEq] at h
      subst h
      simpa [NonNull, hscan] using hst
    · simp at h
  · split at h
    · exact endString_nonNull _ _ _ _ h
    split at h
    · simp only [Option.some.injEq] at h
      subst h
      simp [NonNull]
    split at h
    · simp at h
    · simp only [Option.some.injEq] at h
      subst h
      simp [NonNull]
  · split at h
    · simp only [Option.some.injEq] at h
      subst h
      simp [NonNull]
    · split at h
      · simp only [Option.some.injEq] at h
        subst h
        simp [NonNull]
      · simp at h
  · split at h
    · simp at h
    · split at h
      · simp only [Option.some.injEq] at h
        subst h
        exact addUnit_nonNull _ _ _ _ _
      · simp only [Option.some.injEq] at h
        subst h
        simp [NonNull]
  · split at h
    · simp only [Option.some.injEq] at h
      subst h
      simp [NonNull]
    · split at h
      · simp only [Option.some.injEq] at h
        subst h
        simp [NonNull]
      · simp at h
  · exact stepZero_nonNull _ _ _ _ h
  · split at h
    · simp only [Option.some.injEq] at h
      subst h
      simp [NonNull]
    · exact stepZero_nonNull _ _ _ _ h
  · split at h
    · simp only [Option.some.injEq] at h
      subst h
      simp [NonNull]
    · simp at h
  · split at h
    · simp only [Option.some.injEq] at h
      subst h
      simp [NonNull]
    · split at h
      · simp only [Option.some.injEq] at h
        subst h
        simp [NonNull]
      · exact endNumber_nonNull _ _ _ _ h
  · split at h
    · simp only [Option.some.injEq] at h
      subst h
      simp [NonNull]
    split at h
    · simp only [Option.some.injEq] at h
      subst h
      simp [NonNull]
    · exact stepESign_nonNull _ _ _ _ h
  · exact stepESign_nonNull _ _ _ _ h
  · split at h
    · simp only [Option.some.injEq] at h
      subst h
      simp [NonNull]
    · exact endNumber_nonNull _ _ _ _ h
  · rename_i rest v hscan
    have hv : st.stack ≠ [] ∨ v.isNull = false := by simpa [NonNull, hscan] using hst
    split at h
    · simp at h
    · split at h
      · exact emit_nonNull _ _ _ _ hv h
      · simp at h
    · split at h
      · simp only [Option.some.injEq] at h
        subst h
        simpa [NonNull] using hv
      · simp at h

theorem run_nonNull (cs : List Char) (st st' : St) (hst : NonNull st)
    (h : run st cs = some st') : NonNull st' := by
  induction cs generalizing st with
  | nil =>
    simp only [run, Option.some.injEq] at h
    subst h
    exact hst
  | cons c cs ih =>
    unfold run at h
    split at h
    · rename_i st1 h1
      exact ih st1 (step_nonNull _ _ _ hst h1) h
    · simp at h

theorem finish_nonNull (st : St) (v : Json) (b : Bool) (hst : NonNull st)
    (h : finish st = some (v, b)) : v.isNull = false := by
  unfold finish at h
  split at h
  · rename_i v' hscan
    simp only [Option.some.injEq, Prod.mk.injEq] at h
    rw [← h.1]
    simpa [NonNull, hscan] using hst
  · split at h
    · rename_i st1 h1
      have h2 := step_nonNull _ _ _ hst h1
      split at h
      · rename_i v' hscan
        simp only [Option.some.injEq, Prod.mk.injEq] at h
        rw [← h.1]
        simpa [NonNull, hscan] using h2
      · simp at h
    · simp at h

theorem jsonParse_eq (data : String) :
    jsonParse data = (run St.init data.toList).bind finish := by
  unfold jsonParse
  cases run St.init data.toList <;> rfl

theorem run_endTop (v : Json) (b : Bool) (post : List Char) :
    run ⟨Scan.endTop v, [], b⟩ post
      = if post.all isSpace then some ⟨Scan.endTop v, [], b⟩ else none := by
  induction post with
  | nil => rfl
  | cons c post ih =>
    by_cases hc : isSpace c = true
    · simp only [run, step, hc, if_true, ih, List.all_cons, Bool.true_and]
    · simp [run, step, hc]

theorem run_init_space (c : Char) (cs : List Char) (hc : isSpace c = true) :
    run St.init (c :: cs) = run St.init cs := by
  simp [run, step, St.init, stepBeginValue, hc]

theorem isNullChars_space (c : Char) (cs : List Char) (hc : isSpace c = true) :
    isNullChars (c :: cs) = isNullChars cs := by
  simp [isNullChars, hc]

theorem step_init_n :
    step St.init 'n' = some ⟨Scan.lit ['u', 'l', 'l'] Json.null, [], false⟩ := by
  rfl

theorem run_null_literal (cs : List Char) :
    (run ⟨Scan.lit ['u', 'l', 'l'] Json.null, [], false⟩ cs).bind finish
      = if isNullChars ('n' :: cs) then some (Json.null, false) else none := by
  have hn : isSpace 'n' = false := by decide
  cases cs with
  | nil => rfl
  | cons c1 cs1 =>
    by_cases h1 : c1 = 'u'
    swap
    · simp [run, step, h1, isNullChars, hn]
    subst h1
    cases cs1 with
    | nil => rfl
    | cons c2 cs2 =>
      by_cases h2 : c2 = 'l'
      swap
      · simp [run, step, h2, isNullChars, hn]
      subst h2
      cases cs2 with
      | nil => rfl
      | cons c3 cs3 =>
        by_cases h3 : c3 = 'l'
        swap
        · simp [run, step, h3, isNullChars, hn]
        subst h3
        have hrun : run ⟨Scan.lit ['u', 'l', 'l'] Json.null, [], false⟩ ('u' :: 'l' :: 'l' :: cs3)
            = run ⟨Scan.endTop Json.null, [], false⟩ cs3 := by
          simp [run, step, emit]
        rw [hrun, run_endTop]
        by_cases hp : cs3.all isSpace = true
        · simp only [hp, if_true, isNullChars, hn]
          rfl
        · simp [hp, isNullChars, hn]

theorem run_init_n (cs : List Char) :
    run St.init ('n' :: cs) = run ⟨Scan.lit ['u', 'l', 'l'] Json.null, [], false⟩ cs := by
  simp [run, step_init_n]

theorem parse_of_isNullChars (cs : List Char) (h : isNullChars cs = true) :
    (run St.init cs).bind finish = some (Json.null, false) := by
  induction cs with
  | nil => simp [isNullChars] at h
  | cons c cs ih =>
    by_cases hc : isSpace c = true
    · rw [run_init_space c cs hc]
      exact ih (by rwa [isNullChars_space c cs hc] at h)
    · by_cases hn : c = 'n'
      · subst hn
        rw [run_init_n, run_null_literal, h]
        rfl
      · exfalso
        unfold isNullChars at h
        rw [if_neg hc] at h
        split at h
        · rename_i heq
          exact hn (List.cons.inj heq).1
        · simp at h

theorem isNullChars_of_parse (cs : List Char) (v : Json) (b : Bool)
    (h : (run St.init cs).bind finish = some (v, b)) (hv : v.isNull = true) :
    isNullChars cs = true := by
  induction cs with
  | nil => exact absurd h (by simp [run, finish, step, St.init, stepBeginValue, isSpace])
  | cons c cs ih =>
    by_cases hc : isSpace c = true
    · rw [run_init_space c cs hc] at h
      rw [isNullChars_space c cs hc]
      exact ih h
    · by_cases hn : c = 'n'
      · subst hn
        rw [run_init_n, run_null_literal] at h
        split at h
        · assumption
        · simp at h
      · exfalso
        unfold run at h
        split at h
        · rename_i st1 h1
          have hst1 : NonNull st1 :=
            stepBeginValue_nonNull St.init st1 c (Or.inr ⟨by simpa using hc, hn⟩) h1
          cases h2 : run st1 cs with
          | none => simp [h2] at h
          | some st2 =>
            rw [h2] at h
            have := finish_nonNull st2 v b (run_nonNull cs st1 st2 hst1 h2) h
            rw [hv] at this
            exact Bool.noConfusion this
        · simp at h

theorem jsonParse_null_iff (data : String) (v : Json) (b : Bool)
    (h : jsonParse data = some (v, b)) : v.isNull = true ↔ isNullText data = true := by
  rw [jsonParse_eq] at h
  constructor
  · exact isNullChars_of_parse _ v b h
  · intro hn
    have := parse_of_isNullChars _ hn
    rw [h] at this
    simp only [Option.some.injEq, Prod.mk.injEq] at this
    rw [this.1]
    rfl

theorem jsonParse_of_isNullText (data : String) (h : isNullText data = true) :
    jsonParse data = some (Json.null, false) := by
  rw [jsonParse_eq]
  exact parse_of_isNullChars _ h

theorem readBodyData_null_iff (r : Request) (hlen : r.ContentLength > 0)
    (hread : r.Body.err = none)
    (hjson : stringsContains (headerGet r.Header "Content-Type") "application/json" = true) :
    (readBodyData r).1.isNull = true ↔ isNullText r.Body.data = true := by
  cases hp : jsonParse r.Body.data with
  | none =>
    have hu : jsonUnmarshal r.Body.data = Except.error JsonError.malformed := by
      simp [jsonUnmarshal, hp]
    rw [readBodyData_fallback r hlen hread hjson _ hu]
    constructor
    · intro h
      exact absurd h (by simp [Json.isNull])
    · intro h
      rw [jsonParse_of_isNullText _ h] at hp
      exact absurd hp (by simp)
  | some p =>
    obtain ⟨v, b⟩ := p
    cases b with
    | false =>
      rw [readBodyData_decoded r hlen hread hjson v (jsonUnmarshal_of_parse _ v hp)]
      exact jsonParse_null_iff _ v false hp
    | true =>
      rw [readBodyData_fallback r hlen hread hjson _ (jsonUnmarshal_of_range _ v hp)]
      constructor
      · intro h
        exact absurd h (by simp [Json.isNull])
      · intro h
        rw [jsonParse_of_isNullText _ h] at hp
        exact absurd hp (by simp)

theorem encode_body_key (info : RequestInfo) :
    "body" ∈ info.encode.keys ↔ info.Body.isNull = false := by
  cases h : info.Body.isNull <;> simp [RequestInfo.encode, Json.keys, h]

/-- C10, amended: for a body read without error under a JSON content type:
when the body text is the literal `null` with optional JSON whitespace around
it, the text is valid JSON, its decoded value is the nil interface, the
response document is written and its `received` object has no member `body`,
just as for the same request with no declared body. The document that is
built has the member `body` for every other text, valid JSON or not; the
document is written when the body representation nests at most 9998 levels
deep, and whenever it is written `received.body` is absent exactly for the
literal `null`. -/
theorem null_body_is_omitted (r : Request) (now : String)
    (hlen : r.ContentLength > 0) (hread : r.Body.err = none)
    (hjson : stringsContains (headerGet r.Header "Content-Type") "application/json" = true) :
    (isNullText r.Body.data = true →
        jsonValid r.Body.data = true
        ∧ jsonUnmarshal r.Body.data = Except.ok Json.null
        ∧ (webhookHandler ResponseWriter.new r now).w.body.length = 1
        ∧ (webhookHandler ResponseWriter.new r now).receivedField "body" = none
        ∧ (webhookHandler ResponseWriter.new r now).receivedField "body"
            = (webhookHandler ResponseWriter.new { r with ContentLength := 0 }
                now).receivedField "body")
    ∧ ("body" ∈ (webhookHandler ResponseWriter.new r now).info.encode.keys
        ↔ isNullText r.Body.data = false)
    ∧ ((readBodyData r).1.depth + 2 ≤ maxNestingDepth →
        (webhookHandler ResponseWriter.new r now).w.body.length = 1)
    ∧ ((webhookHandler ResponseWriter.new r now).w.body.length = 1 →
        ((webhookHandler ResponseWriter.new r now).receivedField "body" = none
          ↔ isNullText r.Body.data = true)) := by
  have hiff := readBodyData_null_iff r hlen hread hjson
  have hfst : (webhookHandler ResponseWriter.new r now).w.body.length = 1 →
      ((webhookHandler ResponseWriter.new r now).receivedField "body" = none
        ↔ isNullText r.Body.data = true) := by
    intro hw
    rw [webhookHandler_body r now (jsonEncodes_of_written r now hw), ← hiff]
    cases h : (readBodyData r).1.isNull <;> simp
  refine ⟨?_, ?_, written_of_depth r now, hfst⟩
  · intro h
    have hu := jsonUnmarshal_of_parse _ _ (jsonParse_of_isNullText _ h)
    have hbody := readBodyData_decoded r hlen hread hjson _ hu
    have hw : (webhookHandler ResponseWriter.new r now).w.body.length = 1 :=
      written_of_depth r now (by rw [hbody, depth_null]; decide)
    have hzero : readBodyData { r with ContentLength := 0 } = (Json.null, []) := by
      simp [readBodyData]
    have henc0 : jsonEncodes (responseOf { r with ContentLength := 0 } now) = true :=
      jsonEncodes_of_depth_zero _ now (by rw [hzero, depth_null])
    refine ⟨?_, hu, hw, (hfst hw).mpr h, ?_⟩
    · simp [jsonValid, jsonParse_of_isNullText _ h]
    · rw [(hfst hw).mpr h, webhookHandler_body _ now henc0, hzero]
      rfl
  · rw [webhookHandler_info, encode_body_key]
    show (readBodyData r).1.isNull = false ↔ _
    cases h : (readBodyData r).1.isNull <;> cases h' : isNullText r.Body.data <;> simp_all

/-- The body ` null` followed by a newline leaves `body` out; the empty JSON
string `""` keeps it. -/
theorem null_body_is_omitted_witness :
    (webhookHandler ResponseWriter.new nullPost "t").receivedField "body" = none
    ∧ (webhookHandler ResponseWriter.new emptyStringPost "t").w.body.length = 1
    ∧ (webhookHandler ResponseWriter.new emptyStringPost "t").receivedField "body" ≠ none
    ∧ "body" ∈ (webhookHandler ResponseWriter.new emptyStringPost "t").info.encode.keys :=
  ⟨((null_body_is_omitted nullPost "t" (by decide) rfl (by decide)).1 (by decide)).2.2.2.1,
   (null_body_is_omitted emptyStringPost "t" (by decide) rfl (by decide)).2.2.1 (by decide),
   fun h => absurd
     (((null_body_is_omitted emptyStringPost "t" (by decide) rfl (by decide)).2.2.2
       ((null_body_is_omitted emptyStringPost "t" (by decide) rfl (by decide)).2.2.1
         (by decide))).mp h) (by decide),
   (null_body_is_omitted emptyStringPost "t" (by decide) rfl (by decide)).2.1.mpr (by decide)⟩

/-! ## Deeply nested bodies -/

theorem replicate_next {α : Type} (n : Nat) (a : α) :
    List.replicate (n + 1) a = a :: List.replicate n a := rfl

theorem step_open (k : Nat) (r : Bool) (scan : Scan)
    (hscan : scan = Scan.beginValue ∨ scan = Scan.beginValueOrEmpty)
    (hk : k + 1 ≤ maxNestingDepth) :
    step ⟨scan, List.replicate k (Frame.arr []), r⟩ '['
      = some ⟨Scan.beginValueOrEmpty, List.replicate (k + 1) (Frame.arr []), r⟩ := by
  have hsp : isSpace '[' = false := by decide
  have hpush : push ⟨scan, List.replicate k (Frame.arr []), r⟩ (Frame.arr [])
      Scan.beginValueOrEmpty
      = some ⟨Scan.beginValueOrEmpty, List.replicate (k + 1) (Frame.arr []), r⟩ := by
    simp [push, hk, replicate_next]
  have hbegin : stepBeginValue ⟨scan, List.replicate k (Frame.arr []), r⟩ '['
      = some ⟨Scan.beginValueOrEmpty, List.replicate (k + 1) (Frame.arr []), r⟩ := by
    rw [← hpush]
    simp [stepBeginValue, hsp]
  rcases hscan with h | h <;> subst h
  · simpa [step] using hbegin
  · simpa [step, hsp] using hbegin

theorem run_open (n k : Nat) (r : Bool) (rest : List Char) (hk : k + n ≤ maxNestingDepth) :
    run ⟨Scan.beginValueOrEmpty, List.replicate k (Frame.arr []), r⟩
        (List.replicate n '[' ++ rest)
      = run ⟨Scan.beginValueOrEmpty, List.replicate (k + n) (Frame.arr []), r⟩ rest := by
  induction n generalizing k with
  | zero => rfl
  | succ n ih =>
    have h1 : k + 1 ≤ maxNestingDepth := by omega
    have h2 : k + 1 + n ≤ maxNestingDepth := by omega
    rw [replicate_next n '[', List.cons_append, run, step_open k r _ (Or.inr rfl) h1]
    simp only
    rw [ih (k + 1) h2]
    congr 3
    omega

theorem step_close_first (k : Nat) (r : Bool) :
    step ⟨Scan.beginValueOrEmpty, List.replicate (k + 1) (Frame.arr []), r⟩ ']'
      = emit r (Json.arr []) (List.replicate k (Frame.arr [])) := by
  have hsp : isSpace ']' = false := by decide
  simp [step, hsp, close, replicate_next]

theorem step_close_next (v : Json) (k : Nat) (r : Bool) :
    step ⟨Scan.endValue, Frame.arr [v] :: List.replicate k (Frame.arr []), r⟩ ']'
      = emit r (Json.arr [v]) (List.replicate k (Frame.arr [])) := by
  have hsp : isSpace ']' = false := by decide
  have hc : (']' = ',') = False := by decide
  simp [step, stepEndValue, hsp, close, hc]

theorem run_close (k : Nat) (v : Json) (r : Bool) :
    run ⟨Scan.endValue, Frame.arr [v] :: List.replicate k (Frame.arr []), r⟩
        (List.replicate (k + 1) ']')
      = some ⟨Scan.endTop (nestOver (k + 1) v), [], r⟩ := by
  induction k generalizing v with
  | zero =>
    rw [replicate_next 0 ']', run, step_close_next]
    rfl
  | succ k ih =>
    rw [replicate_next (k + 1) ']', run, step_close_next, replicate_next k (Frame.arr []),
      emit]
    simp only [List.nil_append]
    rw [ih (Json.arr [v])]
    rfl

theorem run_nested (m : Nat) (hm : m + 1 ≤ maxNestingDepth) :
    run St.init (List.replicate (m + 1) '[' ++ List.replicate (m + 1) ']')
      = some ⟨Scan.endTop (nestOver m (Json.arr [])), [], false⟩ := by
  have h0 : (0 : Nat) + 1 ≤ maxNestingDepth := by decide
  have hfirst : step St.init '['
      = some ⟨Scan.beginValueOrEmpty, List.replicate (0 + 1) (Frame.arr []), false⟩ :=
    step_open 0 false Scan.beginValue (Or.inl rfl) h0
  rw [replicate_next m '[', List.cons_append, run, hfirst]
  simp only
  rw [run_open m (0 + 1) false _ (by omega)]
  have hsum : 0 + 1 + m = m + 1 := by omega
  rw [hsum, replicate_next m ']', run, step_close_first]
  cases m with
  | zero => rfl
  | succ m =>
    rw [replicate_next m (Frame.arr []), emit]
    simp only [List.nil_append]
    exact run_close m (Json.arr []) false

theorem jsonParse_nested (m : Nat) (hm : m + 1 ≤ maxNestingDepth) :
    jsonParse (String.mk (List.replicate (m + 1) '[' ++ List.replicate (m + 1) ']'))
      = some (nestOver m (Json.arr []), false) := by
  rw [jsonParse_eq]
  show (run St.init (List.replicate (m + 1) '[' ++ List.replicate (m + 1) ']')).bind finish = _
  rw [run_nested m hm]
  rfl

theorem depth_nestOver (n : Nat) (v : Json) : (nestOver n v).depth = n + v.depth := by
  induction n generalizing v with
  | zero => simp [nestOver]
  | succ n ih =>
    rw [nestOver, ih, depth_arr, depthList_cons]
    have h0 : depthList [] = 0 := by simp [depthList]
    rw [h0]
    simp only [Nat.max_zero]
    omega

theorem jsonParse_deepText :
    jsonParse deepText = some (nestOver 9999 (Json.arr []), false) :=
  jsonParse_nested 9999 (by decide)

theorem readBodyData_deepPost :
    (readBodyData deepPost).1 = nestOver 9999 (Json.arr []) :=
  readBodyData_decoded deepPost (by decide) rfl (by decide) _
    (jsonUnmarshal_of_parse _ _ jsonParse_deepText)

theorem depth_deep : (nestOver 9999 (Json.arr [])).depth = 10000 := by
  rw [depth_nestOver, depth_arr]
  simp [depthList]

theorem isNull_of_depth (v : Json) (h : 0 < v.depth) : v.isNull = false := by
  cases v <;> simp_all [Json.isNull, Json.depth]

theorem jsonEncodes_deepPost (now : String) : jsonEncodes (responseOf deepPost now) = false := by
  have hnull : (readBodyData deepPost).1.isNull = false :=
    isNull_of_depth _ (by rw [readBodyData_deepPost, depth_deep]; decide)
  have h := depth_responseOf_ge deepPost now hnull
  rw [readBodyData_deepPost, depth_deep] at h
  unfold jsonEncodes
  simp only [decide_eq_false_iff_not, not_le]
  show 10000 < _
  omega

theorem deepText_chars :
    deepText.toList = '[' :: (List.replicate 9999 '[' ++ List.replicate 10000 ']') := rfl

theorem isNullChars_bracket (cs : List Char) : isNullChars ('[' :: cs) = false := by
  have hsp : isSpace '[' = false := by decide
  simp [isNullChars, hsp]

theorem isNullText_deepText : isNullText deepText = false := by
  unfold isNullText
  rw [deepText_chars]
  exact isNullChars_bracket _

/-- Against C1 as stated: the body of 10000 nested arrays is read without
error and is valid JSON, and the reply has status 200 and an empty body: no
`WebhookResponse` document and no member `status`. -/
theorem deep_body_empty_reply_counterexample :
    deepPost.ContentLength > 0
    ∧ deepPost.Body.err = none
    ∧ jsonValid deepPost.Body.data = true
    ∧ (webhookHandler ResponseWriter.new deepPost "t").w.status = some 200
    ∧ (webhookHandler ResponseWriter.new deepPost "t").w.body = []
    ∧ (webhookHandler ResponseWriter.new deepPost "t").w.field "status" = none := by
  have hw := webhookHandler_unwritten deepPost "t" (jsonEncodes_deepPost "t")
  refine ⟨by decide, rfl, ?_, ?_, ?_, ?_⟩
  · show jsonValid deepText = true
    simp [jsonValid, jsonParse_deepText]
  · rw [hw]
    rfl
  · rw [hw]
  · rw [hw]
    rfl

/-- Against C10 as stated: the body of 10000 nested arrays is valid JSON, is
not the literal `null` and decodes without error, and the response has no
`received` object and so no member `body`. -/
theorem deep_body_not_echoed_counterexample :
    stringsContains (headerGet deepPost.Header "Content-Type") "application/json" = true
    ∧ jsonValid deepPost.Body.data = true
    ∧ isNullText deepPost.Body.data = false
    ∧ jsonUnmarshal deepPost.Body.data = Except.ok (nestOver 9999 (Json.arr []))
    ∧ (webhookHandler ResponseWriter.new deepPost "t").received = none
    ∧ (webhookHandler ResponseWriter.new deepPost "t").receivedField "body" = none := by
  have hw := webhookHandler_unwritten deepPost "t" (jsonEncodes_deepPost "t")
  have hrec : (webhookHandler ResponseWriter.new deepPost "t").received = none := by
    unfold Handled.received
    rw [hw]
    rfl
  refine ⟨by decide, ?_, isNullText_deepText, jsonUnmarshal_of_parse _ _ jsonParse_deepText,
    hrec, ?_⟩
  · show jsonValid deepText = true
    simp [jsonValid, jsonParse_deepText]
  · unfold Handled.receivedField
    rw [hrec]
    rfl

/-! ## The callback endpoint acknowledges -/

/-- C1, amended: for every request, whatever its method, headers, query and
body and also when the body read or the JSON decoding fails, `webhookHandler`
answers with status 200 and `Content-Type: application/json`, and builds the
`RequestInfo` from the request's method, URL, headers, query parameters,
remote address, content length and host. The body of the reply is empty or
one JSON document; it is one document when the body representation nests at
most 9998 levels deep; and the document has `status` "success", the fixed
`message`, the timestamp and the encoded `RequestInfo` as `received`. No
other status code and no other `status` is ever produced. -/
theorem webhook_acknowledges (r : Request) (now : String) :
    ((webhookHandler ResponseWriter.new r now).w.status = some 200
      ∧ (webhookHandler ResponseWriter.new r now).w.sentHeader "Content-Type"
          = some ["application/json"]
      ∧ (webhookHandler ResponseWriter.new r now).info.Method = r.Method
      ∧ (webhookHandler ResponseWriter.new r now).info.URL = r.URL.text
      ∧ (webhookHandler ResponseWriter.new r now).info.Headers = r.Header
      ∧ (webhookHandler ResponseWriter.new r now).info.QueryParams = r.URL.Query
      ∧ (webhookHandler ResponseWriter.new r now).info.RemoteAddr = r.RemoteAddr
      ∧ (webhookHandler ResponseWriter.new r now).info.ContentLength = r.ContentLength
      ∧ (webhookHandler ResponseWriter.new r now).info.Host = r.Host)
    ∧ ((webhookHandler ResponseWriter.new r now).w.body = []
        ∨ (webhookHandler ResponseWriter.new r now).w.body.length = 1)
    ∧ ((readBodyData r).1.depth + 2 ≤ maxNestingDepth →
        (webhookHandler ResponseWriter.new r now).w.body.length = 1)
    ∧ ((webhookHandler ResponseWriter.new r now).w.body.length = 1 →
        (webhookHandler ResponseWriter.new r now).w.field "status"
            = some (Json.str "success")
        ∧ (webhookHandler ResponseWriter.new r now).w.field "message"
            = some (Json.str "Webhook 接收成功")
        ∧ (webhookHandler ResponseWriter.new r now).w.field "timestamp"
            = some (Json.str now)
        ∧ (webhookHandler ResponseWriter.new r now).received
            = some (webhookHandler ResponseWriter.new r now).info.encode) := by
  refine ⟨⟨(webhookHandler_status r now).1, (webhookHandler_status r now).2,
    rfl, rfl, rfl, rfl, rfl, rfl, rfl⟩, ?_, written_of_depth r now, ?_⟩
  · cases h : jsonEncodes (responseOf r now)
    · left
      rw [webhookHandler_unwritten r now h]
    · right
      exact (webhookHandler_fields r now h).1
  · intro hw
    have henc := jsonEncodes_of_written r now hw
    have hf := webhookHandler_fields r now henc
    exact ⟨hf.2.1, hf.2.2.1, hf.2.2.2, webhookHandler_received r now henc⟩

/-- The spec's JSON example is acknowledged with one document of status
"success". -/
theorem webhook_acknowledges_witness :
    (webhookHandler ResponseWriter.new jsonPost "t").w.status = some 200
    ∧ (webhookHandler ResponseWriter.new jsonPost "t").w.body.length = 1
    ∧ (webhookHandler ResponseWriter.new jsonPost "t").w.field "status"
        = some (Json.str "success") :=
  ⟨(webhook_acknowledges jsonPost "t").1.1,
   (webhook_acknowledges jsonPost "t").2.2.1 (by decide),
   ((webhook_acknowledges jsonPost "t").2.2.2
     ((webhook_acknowledges jsonPost "t").2.2.1 (by decide))).1⟩

end Webhook
